import Mathlib

/-!
# Verification of the Mini Buyer-Lead-Intake slice

Shallow embedding of the repository's authorization model
(`supabase/migrations/20250915111553_*.sql`) and of the CSV import/export
pipeline (`src/pages/ImportExport.tsx`, `src/lib/validations.ts`), together
with theorems settling the frozen claims about them.

Strings from the TypeScript code are modelled as `List Char`; JavaScript's
`String.prototype.split` with a one-character separator is `List.splitOn`,
`trim` is dropping whitespace at both ends, and SQL `NULL` is `Option`.
-/

namespace BuyerLeads

/-! ## Roles and row-level-security policies (from the SQL migration) -/

/-- `app_role` enum: `CREATE TYPE public.app_role AS ENUM ('admin','agent','viewer')`. -/
inductive Role where
  | admin
  | agent
  | viewer
deriving DecidableEq, Repr

/-- A row of `public.profiles` (the fields the policies consult). -/
structure Profile where
  user_id : Nat
  role : Role
deriving DecidableEq, Repr

/-- `public.get_user_role(user_id)`: `SELECT role FROM profiles WHERE user_id = $1`. -/
def get_user_role (profiles : List Profile) (uid : Nat) : Option Role :=
  (profiles.find? (fun p => p.user_id = uid)).map (fun p => p.role)

/-- The ownership columns of a `public.buyer_leads` row that the policies read
(`created_by` and `assigned_to` are nullable user references). -/
structure LeadOwnership where
  id : Nat
  created_by : Option Nat
  assigned_to : Option Nat
deriving DecidableEq, Repr

/-- A `public.lead_activities` row (the column the SELECT/INSERT policies read). -/
structure ActivityRow where
  lead_id : Nat
deriving DecidableEq, Repr

/-- SELECT on `buyer_leads`: the permissive policies
"Admins can do everything with leads" (`USING role = 'admin'`) OR
"Agents can view all leads" (`USING role IN ('admin','agent','viewer')`). -/
def leadSelectAllowed (profiles : List Profile) (uid : Nat) : Bool :=
  get_user_role profiles uid = some Role.admin
    || (get_user_role profiles uid = some Role.admin
        || get_user_role profiles uid = some Role.agent
        || get_user_role profiles uid = some Role.viewer)

/-- INSERT on `buyer_leads`: "Admins can do everything" OR
"Agents can create leads" (`WITH CHECK role IN ('admin','agent')`). -/
def leadInsertAllowed (profiles : List Profile) (uid : Nat) : Bool :=
  get_user_role profiles uid = some Role.admin
    || (get_user_role profiles uid = some Role.admin
        || get_user_role profiles uid = some Role.agent)

/-- UPDATE on `buyer_leads`: "Admins can do everything" OR
"Agents can update leads they created or are assigned to"
(`USING role = 'admin' OR created_by = auth.uid() OR assigned_to = auth.uid()`). -/
def leadUpdateAllowed (profiles : List Profile) (uid : Nat) (row : LeadOwnership) : Bool :=
  get_user_role profiles uid = some Role.admin
    || (get_user_role profiles uid = some Role.admin
        || row.created_by = some uid
        || row.assigned_to = some uid)

/-- DELETE on `buyer_leads`: "Admins can do everything" OR
"Only admins can delete leads" (`USING role = 'admin'`). -/
def leadDeleteAllowed (profiles : List Profile) (uid : Nat) : Bool :=
  get_user_role profiles uid = some Role.admin
    || get_user_role profiles uid = some Role.admin

/-- SELECT on `lead_activities`: "Users can view activities for leads they have
access to": `EXISTS (SELECT 1 FROM buyer_leads bl WHERE bl.id = lead_id AND
(role = 'admin' OR bl.created_by = auth.uid() OR bl.assigned_to = auth.uid()))`. -/
def activitySelectAllowed (profiles : List Profile) (leads : List LeadOwnership)
    (uid : Nat) (a : ActivityRow) : Bool :=
  leads.any (fun bl =>
    bl.id = a.lead_id
      && (get_user_role profiles uid = some Role.admin
          || bl.created_by = some uid
          || bl.assigned_to = some uid))

/-! ## Schema-level constraints on `buyer_leads` (from the DDL) -/

/-- `lead_status` enum literals. -/
def statusLiterals : List (List Char) :=
  ["new".data, "contacted".data, "qualified".data, "not_qualified".data,
   "closed".data]

/-- `lead_source` enum literals. -/
def sourceLiterals : List (List Char) :=
  ["website".data, "referral".data, "social_media".data, "cold_call".data,
   "email_campaign".data, "other".data]

/-- The constrained columns of a `buyer_leads` row: `status lead_status`,
`source lead_source`, `priority INTEGER CHECK (priority >= 1 AND priority <= 5)`
— all three columns are nullable. -/
structure LeadConstrained where
  status : Option (List Char)
  source : Option (List Char)
  priority : Option Int
deriving DecidableEq, Repr

/-- Postgres acceptance of a row: a `NULL` value belongs to the enum column type
and does not falsify the `CHECK`, so every `none` passes; a non-null value must
be one of the enum literals resp. satisfy `1 <= priority <= 5`. -/
def leadRowAccepted (v : LeadConstrained) : Bool :=
  (match v.status with
    | none => true
    | some s => decide (s ∈ statusLiterals))
  && (match v.source with
    | none => true
    | some s => decide (s ∈ sourceLiterals))
  && (match v.priority with
    | none => true
    | some p => 1 ≤ p && p ≤ 5)

/-- Inserting into `buyer_leads`: rejected rows leave the table unchanged. -/
def insertLeadRow (db : List LeadConstrained) (v : LeadConstrained) :
    List LeadConstrained × Bool :=
  if leadRowAccepted v then (db ++ [v], true) else (db, false)

/-- Updating row `i` of `buyer_leads` to the supplied values: rejected updates
leave the table unchanged. -/
def updateLeadRow (db : List LeadConstrained) (i : Nat) (v : LeadConstrained) :
    List LeadConstrained × Bool :=
  if leadRowAccepted v then (db.set i v, true) else (db, false)

/-! ## JavaScript string primitives used by `ImportExport.tsx` -/

/-- JavaScript `String.prototype.trim`, on the character list. -/
def jsTrim (cs : List Char) : List Char :=
  ((cs.dropWhile Char.isWhitespace).reverse.dropWhile Char.isWhitespace).reverse

/-- `str s` is the character list of a string literal. -/
def str (s : String) : List Char :=
  s.data

/-- The quote-aware comma splitter `parseCsvLine` of `ImportExport.tsx`:
scan the characters, `"` toggles `inQuotes` (and is dropped), an unquoted `,`
emits the current field trimmed, every other character is appended. -/
def parseCsvAux : List Char → List Char → Bool → List (List Char) → List (List Char)
  | [], current, _, acc => acc ++ [jsTrim current]
  | c :: cs, current, inQuotes, acc =>
    if c = '"' then
      parseCsvAux cs current (!inQuotes) acc
    else if c = ',' && !inQuotes then
      parseCsvAux cs [] false (acc ++ [jsTrim current])
    else
      parseCsvAux cs (current ++ [c]) inQuotes acc

/-- `parseCsvLine(line)` from `ImportExport.tsx`. -/
def parseCsvLine (line : List Char) : List (List Char) :=
  parseCsvAux line [] false []

/-- `replace(/\s+/g, '_')`: each maximal run of whitespace becomes a single
underscore; the flag records whether the previous character was whitespace. -/
def squashWsAux : Bool → List Char → List Char
  | _, [] => []
  | prevWs, c :: cs =>
    if c.isWhitespace then
      (if prevWs then [] else ['_']) ++ squashWsAux true cs
    else
      c :: squashWsAux false cs

/-- `h.toLowerCase().replace(/\s+/g, '_')`, applied to each parsed header cell. -/
def normalizeHeader (h : List Char) : List Char :=
  squashWsAux false (h.map Char.toLower)

/-- `rowData[header] = values[index]` executed for each header in order, skipping
falsy (absent or empty) values; a later duplicate header overwrites an earlier
one, so the lookup is the last non-empty value recorded for the name. -/
def rowLookup (headers : List (List Char)) (vals : List (List Char))
    (h : List Char) : Option (List Char) :=
  (headers.zip vals).foldl
    (fun acc p => if p.1 = h && p.2 ≠ [] then some p.2 else acc) none

/-! ## The zod `csvImportSchema` (from `src/lib/validations.ts`) -/

/-- Model of the character class of the local part of zod's email regular
expression: letters, digits, `_`, `+`, `-`, `.` and the apostrophe. -/
def isLocalChar (c : Char) : Bool :=
  c.isAlphanum || c = '_' || c = '+' || c = '-' || c = '.' || c = Char.ofNat 39

/-- Two consecutive dots somewhere in the list. -/
def hasDoubleDot : List Char → Bool
  | '.' :: '.' :: _ => true
  | _ :: cs => hasDoubleDot cs
  | [] => false

/-- A domain label `[A-Z0-9][A-Z0-9-]*` (case-insensitive). -/
def labelOk (l : List Char) : Bool :=
  match l with
  | [] => false
  | c :: cs => c.isAlphanum && cs.all (fun d => d.isAlphanum || d = '-')

/-- Model of `z.string().email()`: local part from the allowed class, not
starting with a dot, no `..`, not ending in a dot or apostrophe; domain a
dot-separated sequence of labels ending in an alphabetic TLD of length ≥ 2. -/
def isValidEmail (cs : List Char) : Bool :=
  match cs.splitOn '@' with
  | [lp, dom] =>
    (match lp with
      | [] => false
      | c :: _ => !(c = '.'))
    && lp.all isLocalChar
    && !hasDoubleDot lp
    && (match lp.reverse with
      | [] => false
      | c :: _ => c.isAlphanum || c = '_' || c = '+' || c = '-')
    && (match (dom.splitOn '.').reverse with
      | [] => false
      | tld :: labels =>
        2 ≤ tld.length && tld.all Char.isAlpha && labels ≠ []
          && labels.all labelOk)
  | _ => false

/-- The parsed output of `csvImportSchema`: three required strings and eleven
optional ones (unrecognized keys of the row object are stripped). -/
structure CSVImportData where
  first_name : List Char
  last_name : List Char
  email : List Char
  phone : Option (List Char)
  budget_min : Option (List Char)
  budget_max : Option (List Char)
  preferred_areas : Option (List Char)
  property_type : Option (List Char)
  bedrooms : Option (List Char)
  bathrooms : Option (List Char)
  status : Option (List Char)
  source : Option (List Char)
  priority : Option (List Char)
  notes : Option (List Char)
deriving DecidableEq, Repr

/-- `csvImportSchema.parse(rowData)`: `first_name`/`last_name` must be present
(`z.string().min(1)` — values recorded in the row object are never empty),
`email` must be present and pass the email check; the other fields are optional
plain strings. -/
def csvImportSchemaParse (headers : List (List Char)) (vals : List (List Char)) :
    Except String CSVImportData :=
  match rowLookup headers vals (str "first_name") with
  | none => .error "first_name: Required"
  | some fn =>
    match rowLookup headers vals (str "last_name") with
    | none => .error "last_name: Required"
    | some ln =>
      match rowLookup headers vals (str "email") with
      | none => .error "email: Required"
      | some em =>
        if isValidEmail em then
          .ok
            { first_name := fn
              last_name := ln
              email := em
              phone := rowLookup headers vals (str "phone")
              budget_min := rowLookup headers vals (str "budget_min")
              budget_max := rowLookup headers vals (str "budget_max")
              preferred_areas := rowLookup headers vals (str "preferred_areas")
              property_type := rowLookup headers vals (str "property_type")
              bedrooms := rowLookup headers vals (str "bedrooms")
              bathrooms := rowLookup headers vals (str "bathrooms")
              status := rowLookup headers vals (str "status")
              source := rowLookup headers vals (str "source")
              priority := rowLookup headers vals (str "priority")
              notes := rowLookup headers vals (str "notes") }
        else
          .error "email: Invalid email"

/-! ## Decimal numbers

`budget_min`/`budget_max` are `DECIMAL(12,2)` and `bathrooms` is
`DECIMAL(3,1)`; their values are multiples of `10 ^ -scale` and are modelled as
integers scaled by `10 ^ scale`.  `renderDec` is JavaScript number printing
(shortest decimal form, no trailing zeros, no `.0`); `parseDecChars` models
`parseFloat` followed by the cast to the `DECIMAL` column (decimal digits
parsed exactly, fraction beyond the scale rounded half away from zero;
an unparsable string is `NaN`, which the JSON layer turns into `null`). -/

/-- Value of a most-significant-first list of decimal digit characters. -/
def digitsToNat (ds : List Char) : Nat :=
  ds.foldl (fun a c => 10 * a + (c.toNat - 48)) 0

/-- Decimal digit characters of `n`, most significant first. -/
def natChars (n : Nat) : List Char :=
  if n = 0 then ['0'] else ((Nat.digits 10 n).map Nat.digitChar).reverse

/-- Strip trailing `'0'` characters. -/
def stripZeros (frac : List Char) : List Char :=
  (frac.reverse.dropWhile (fun c => c = '0')).reverse

/-- The fractional digits of `fp < 10 ^ scale`, padded on the left to `scale`. -/
def fracChars (scale fp : Nat) : List Char :=
  List.replicate (scale - (Nat.digits 10 fp).length) '0'
    ++ ((Nat.digits 10 fp).map Nat.digitChar).reverse

/-- JavaScript printing of the number `v / 10 ^ scale` (`v` scaled integral). -/
def renderDec (scale : Nat) (v : Int) : List Char :=
  let m := v.natAbs
  let body :=
    natChars (m / 10 ^ scale)
      ++ (match stripZeros (fracChars scale (m % 10 ^ scale)) with
        | [] => []
        | fs => '.' :: fs)
  if v < 0 then '-' :: body else body

/-- Unsigned decimal parse at the given scale: digit run, optional `.` and
digit run (at least one digit overall), fraction truncated at `scale` digits
with round-half-away-from-zero on the first dropped digit. -/
def parseDecNat (scale : Nat) (cs : List Char) : Option Nat :=
  let ipart := cs.takeWhile Char.isDigit
  match cs.dropWhile Char.isDigit with
  | [] =>
    if ipart = [] then none else some (digitsToNat ipart * 10 ^ scale)
  | c :: fracCs =>
    if c = '.' then
      if fracCs.all Char.isDigit && !(ipart = [] && fracCs = []) then
        let taken := fracCs.take scale
        let carry : Nat :=
          match fracCs.drop scale with
          | d :: _ => if 53 ≤ d.toNat then 1 else 0
          | [] => 0
        some (digitsToNat ipart * 10 ^ scale
          + digitsToNat taken * 10 ^ (scale - taken.length) + carry)
      else none
    else none

/-- Signed decimal parse (model of `parseFloat` + `DECIMAL(…,scale)` storage). -/
def parseDecChars (scale : Nat) (cs : List Char) : Option Int :=
  match cs with
  | [] => none
  | c :: rest =>
    if c = '-' then (parseDecNat scale rest).map (fun n => -(Int.ofNat n))
    else if c = '+' then (parseDecNat scale rest).map (fun n => Int.ofNat n)
    else (parseDecNat scale (c :: rest)).map (fun n => Int.ofNat n)

/-- `parseInt` digit-prefix value; `NaN` when there is no leading digit. -/
def parseIntNat (cs : List Char) : Option Nat :=
  match cs.takeWhile Char.isDigit with
  | [] => none
  | ds => some (digitsToNat ds)

/-- Model of JavaScript `parseInt` (base 10): optional sign then digit prefix. -/
def parseIntChars (cs : List Char) : Option Int :=
  match cs with
  | [] => none
  | c :: rest =>
    if c = '-' then (parseIntNat rest).map (fun n => -(Int.ofNat n))
    else if c = '+' then (parseIntNat rest).map (fun n => Int.ofNat n)
    else (parseIntNat (c :: rest)).map (fun n => Int.ofNat n)

/-! ## The lead row built by the import loop (`ImportExport.tsx`, `leadData`) -/

/-- The object inserted into `buyer_leads` by the import loop.  Numeric fields
are scaled integers (`budget_*` in hundredths, `bathrooms` in tenths); `none`
is JSON/SQL `null` (including `NaN` serialized as `null`). -/
structure LeadData where
  first_name : List Char
  last_name : List Char
  email : List Char
  phone : Option (List Char)
  budget_min : Option Int
  budget_max : Option Int
  preferred_areas : List (List Char)
  property_type : Option (List Char)
  bedrooms : Option Int
  bathrooms : Option Int
  status : List Char
  source : List Char
  priority : Option Int
  notes : Option (List Char)
  created_by : Nat
deriving DecidableEq, Repr

/-- `x || fallback` on an optional string whose JS falsy values are absence and
the empty string. -/
def orElseStr (x : Option (List Char)) (fallback : List Char) : List Char :=
  match x with
  | some s => if s = [] then fallback else s
  | none => fallback

/-- JS truthiness filter: absent or empty becomes `null`. -/
def truthy (x : Option (List Char)) : Option (List Char) :=
  match x with
  | some s => if s = [] then none else some s
  | none => none

/-- The `leadData` conversion of the import loop: defaults `status='new'`,
`source='other'`, `priority=3`; `preferred_areas` split on `;` and trimmed;
numeric strings through `parseFloat`/`parseInt`. -/
def toLeadData (uid : Nat) (d : CSVImportData) : LeadData where
  first_name := d.first_name
  last_name := d.last_name
  email := d.email
  phone := truthy d.phone
  budget_min := (truthy d.budget_min).bind (parseDecChars 2)
  budget_max := (truthy d.budget_max).bind (parseDecChars 2)
  preferred_areas :=
    match truthy d.preferred_areas with
    | some s => (s.splitOn ';').map jsTrim
    | none => []
  property_type := truthy d.property_type
  bedrooms := (truthy d.bedrooms).bind parseIntChars
  bathrooms := (truthy d.bathrooms).bind (parseDecChars 1)
  status := orElseStr d.status (str "new")
  source := orElseStr d.source (str "other")
  priority :=
    match truthy d.priority with
    | some s => parseIntChars s
    | none => some 3
  notes := truthy d.notes
  created_by := uid

/-! ## The import pipeline (`handleFileImport`) -/

/-- One entry of the `errors` array of the import result. -/
structure RowError where
  row : Nat
  error : String
deriving DecidableEq, Repr

/-- The `ImportResult` record of `ImportExport.tsx`. -/
structure ImportResult where
  success : Nat
  errors : List RowError
  total : Nat
deriving DecidableEq, Repr

/-- Processing of one data line: parse, validate against the zod schema,
convert, and attempt the insert (`ins` is the data store's verdict, covering
both schema constraints and the row-level insert policy). -/
def importRow (ins : LeadData → Bool) (uid : Nat) (headers : List (List Char))
    (line : List Char) : Except String LeadData :=
  match csvImportSchemaParse headers (parseCsvLine line) with
  | .error e => .error e
  | .ok d =>
    let ld := toLeadData uid d
    if ins ld then .ok ld else .error "insert failed"

/-- The fold state of the import loop: successes, errors, inserted rows. -/
def importStep (ins : LeadData → Bool) (uid : Nat) (headers : List (List Char))
    (acc : Nat × List RowError × List LeadData) (p : Nat × List Char) :
    Nat × List RowError × List LeadData :=
  if jsTrim p.2 = [] then acc
  else
    match importRow ins uid headers p.2 with
    | .ok ld => (acc.1 + 1, acc.2.1, acc.2.2 ++ [ld])
    | .error e => (acc.1, acc.2.1 ++ [⟨p.1 + 2, e⟩], acc.2.2)

/-- The required import columns. -/
def requiredFields : List (List Char) :=
  [str "first_name", str "last_name", str "email"]

/-- `handleFileImport` of `ImportExport.tsx`: split into non-empty lines,
reject when fewer than two, normalize the header cells, reject when a required
column is missing, then run every data line through `importStep` and report.
On success the returned pair also carries the inserted rows (the successful
`supabase.insert` calls), so that theorems can speak about stored effects. -/
def handleFileImport (ins : LeadData → Bool) (uid : Nat) (text : String) :
    Except String (ImportResult × List LeadData) :=
  let lines := (text.data.splitOn '\n').filter (fun l => jsTrim l ≠ [])
  if lines.length < 2 then
    .error "CSV file must contain at least a header row and one data row"
  else
    match lines with
    | [] => .error "CSV file must contain at least a header row and one data row"
    | headerLine :: dataLines =>
      let headers := (parseCsvLine headerLine).map normalizeHeader
      let missing := requiredFields.filter (fun f => !headers.contains f)
      if missing ≠ [] then
        .error "Missing required columns"
      else
        let r := dataLines.enum.foldl (importStep ins uid headers) (0, [], [])
        .ok (⟨r.1, r.2.1, dataLines.length⟩, r.2.2)

/-- The inserted leads produced by a row list, row by row (used to state that
the import loop records exactly one outcome per attempted row). -/
def okOutcomes (ins : LeadData → Bool) (uid : Nat) (headers : List (List Char))
    (rows : List (Nat × List Char)) : List LeadData :=
  rows.filterMap (fun p => (importRow ins uid headers p.2).toOption)

/-- The recorded errors produced by a row list, row by row, with the loop's
row numbering `index + 2`. -/
def errOutcomes (ins : LeadData → Bool) (uid : Nat) (headers : List (List Char))
    (rows : List (Nat × List Char)) : List RowError :=
  rows.filterMap (fun p =>
    match importRow ins uid headers p.2 with
    | .ok _ => none
    | .error e => some ⟨p.1 + 2, e⟩)

/-- The lead inserted for the data row `John,Doe,john@x.com` under the header
`first_name,last_name,email` by the importing identity 0. -/
def sampleLead : LeadData :=
  ⟨str "John", str "Doe", str "john@x.com", none, none, none, [], none, none,
   none, str "new", str "other", some 3, none, 0⟩

/-! ## The export pipeline (`handleExport`) -/

/-- The data store's verdict on the import loop's insert: the payload always
supplies `status` and `source` (so the enum column types check them) and a
possibly-null `priority` (checked by the `CHECK` constraint when non-null). -/
def dbInsertAccepts (ld : LeadData) : Bool :=
  leadRowAccepted ⟨some ld.status, some ld.source, ld.priority⟩

/-- JavaScript `Array.prototype.join(sep)`. -/
def joinSep (sep : List Char) : List (List Char) → List Char
  | [] => []
  | [x] => x
  | x :: xs => x ++ sep ++ joinSep sep xs

/-- The stored lead columns serialized by the export (nullable columns are
`Option`; `preferred_areas` is the array column, a `NULL` array rendering the
same as the empty array). -/
structure StoredLead where
  first_name : List Char
  last_name : List Char
  email : List Char
  phone : Option (List Char)
  budget_min : Option Int
  budget_max : Option Int
  preferred_areas : List (List Char)
  property_type : Option (List Char)
  bedrooms : Option Int
  bathrooms : Option Int
  status : Option (List Char)
  source : Option (List Char)
  priority : Option Int
  notes : Option (List Char)
  created_at : List Char
deriving DecidableEq, Repr

/-- `value.includes(',') → value = `"${value}"``: quote-wrap a string cell
containing a comma (no escaping of embedded quotes). -/
def quoteIfComma (s : List Char) : List Char :=
  if s.contains ',' then '"' :: (s ++ ['"']) else s

/-- A nullable string cell: `null` renders as the empty string. -/
def optCell (v : Option (List Char)) : List Char :=
  match v with
  | none => []
  | some s => quoteIfComma s

/-- A nullable numeric cell (numbers are not strings, so never quote-wrapped). -/
def numCell (scale : Nat) (v : Option Int) : List Char :=
  match v with
  | none => []
  | some n => renderDec scale n

/-- The export header row, in the fixed column order of `handleExport`. -/
def exportHeaders : List (List Char) :=
  [str "first_name", str "last_name", str "email", str "phone",
   str "budget_min", str "budget_max", str "preferred_areas",
   str "property_type", str "bedrooms", str "bathrooms", str "status",
   str "source", str "priority", str "notes", str "created_at"]

/-- The fifteen cells of one exported lead, in header order.  Note the
special-case chain of the source: an array value is joined with `;` and then
**not** quote-wrapped even if it contains a comma (the `else if` chain). -/
def exportCells (l : StoredLead) : List (List Char) :=
  [quoteIfComma l.first_name,
   quoteIfComma l.last_name,
   quoteIfComma l.email,
   optCell l.phone,
   numCell 2 l.budget_min,
   numCell 2 l.budget_max,
   joinSep [';'] l.preferred_areas,
   optCell l.property_type,
   numCell 0 l.bedrooms,
   numCell 1 l.bathrooms,
   optCell l.status,
   optCell l.source,
   numCell 0 l.priority,
   optCell l.notes,
   quoteIfComma l.created_at]

/-- One exported CSV row: the cells joined with `,`. -/
def exportRow (l : StoredLead) : List Char :=
  joinSep [','] (exportCells l)

/-- The CSV text produced by `handleExport`: header line and one row per lead,
joined with `\n`. -/
def exportCsv (leads : List StoredLead) : List Char :=
  joinSep ['\n'] ((joinSep [','] exportHeaders) :: leads.map exportRow)

/-- Outcome of `handleExport`: a query error, the early-returning "No Data"
notice, or a downloaded CSV file. -/
inductive ExportOutcome where
  | failed (msg : String)
  | noData
  | csvFile (content : List Char)
deriving DecidableEq, Repr

/-- `handleExport` of `ImportExport.tsx`, parameterized by the policy-filtered
query result: on a query error the error toast; on zero visible rows the
"No Data" toast and an early return without producing a file; otherwise the
serialized CSV blob. -/
def handleExport (queryResult : Except String (List StoredLead)) : ExportOutcome :=
  match queryResult with
  | .error e => .failed e
  | .ok leads =>
    if leads.isEmpty then .noData
    else .csvFile (exportCsv leads)

/-! ## Round-trip vocabulary (export followed by re-import) -/

/-- A nullable string cell as the export renders it before quoting. -/
def optRaw (v : Option (List Char)) : List Char :=
  v.getD []

/-- The fifteen cell *values* of one exported lead, before comma-quoting. -/
def rawCells (l : StoredLead) : List (List Char) :=
  [l.first_name, l.last_name, l.email, optRaw l.phone, numCell 2 l.budget_min,
   numCell 2 l.budget_max, joinSep [';'] l.preferred_areas,
   optRaw l.property_type, numCell 0 l.bedrooms, numCell 1 l.bathrooms,
   optRaw l.status, optRaw l.source, numCell 0 l.priority, optRaw l.notes,
   l.created_at]

/-- A text value that survives the CSV layer: fixed under `trim`, and free of
the quote character (which the scanner strips) and of newlines (which break
the line structure). -/
abbrev cleanText (s : List Char) : Prop :=
  jsTrim s = s ∧ '"' ∉ s ∧ '\n' ∉ s

/-- A nullable text value that survives the CSV layer: `NULL`, or clean and
non-empty (an empty cell would be read back as `NULL`). -/
abbrev cleanOpt (v : Option (List Char)) : Prop :=
  cleanText (v.getD []) ∧ v ≠ some []

/-- A preferred-area entry that survives the `;`-join/split and the unquoted
array cell: clean, non-empty, and free of `,` and `;`. -/
abbrev cleanArea (s : List Char) : Prop :=
  cleanText s ∧ s ≠ [] ∧ ',' ∉ s ∧ ';' ∉ s

/-- A stored lead whose export re-imports to an equivalent lead: required
names present and clean, a valid email, clean optional texts, clean areas,
non-null enum values from the enumerations, and a non-null priority in
`[1,5]`. -/
abbrev RoundTrippable (l : StoredLead) : Prop :=
  cleanText l.first_name ∧ l.first_name ≠ []
    ∧ cleanText l.last_name ∧ l.last_name ≠ []
    ∧ cleanText l.email ∧ l.email ≠ [] ∧ isValidEmail l.email = true
    ∧ cleanOpt l.phone ∧ cleanOpt l.property_type ∧ cleanOpt l.notes
    ∧ (∀ a ∈ l.preferred_areas, cleanArea a)
    ∧ (∃ s ∈ statusLiterals, l.status = some s)
    ∧ (∃ s ∈ sourceLiterals, l.source = some s)
    ∧ l.priority ≠ none ∧ 1 ≤ l.priority.getD 3 ∧ l.priority.getD 3 ≤ 5
    ∧ cleanText l.created_at

/-- The lead the re-import inserts for a stored lead `l`: the same field
values, with the non-null `status`/`source` unwrapped and the row attributed
to the importing identity. -/
def asLeadData (uid : Nat) (l : StoredLead) : LeadData :=
  ⟨l.first_name, l.last_name, l.email, l.phone, l.budget_min, l.budget_max,
   l.preferred_areas, l.property_type, l.bedrooms, l.bathrooms,
   l.status.getD (str "new"), l.source.getD (str "other"), l.priority,
   l.notes, uid⟩

/-- A stored lead with a newline inside `notes` (obtainable through the lead
form, whose validation accepts arbitrary note strings). -/
def newlineNotesLead : StoredLead :=
  ⟨str "John", str "Doe", str "john@x.com", none, none, none, [], none, none,
   none, some (str "new"), some (str "website"), none,
   some ('a' :: '\n' :: ['b']), str ""⟩

/-- A representative clean stored lead exercising every field. -/
def witnessLead : StoredLead :=
  ⟨str "Ann", str "Lee", str "ann@x.com", some (str "555-01"), some 30000000,
   some 50000050, [str "Downtown", str "Mid town"], some (str "Condo"),
   some 3, some 25, some (str "contacted"), some (str "referral"), some 4,
   some (str "likes, gardens"), str "2025-01-01T00:00:00+00:00"⟩

/-! ## Claims about the row-level policies -/

/-- **C1, counterexample.** The claim says the `LeadActivity` read predicate
allows exactly the callers the `Lead` read predicate allows for the parent
lead.  False: an `agent` (uid 1) who neither created nor is assigned lead 5
may read the lead, but the activity SELECT policy denies reading its
activities. -/
theorem c1_cex :
    leadSelectAllowed [⟨1, Role.agent⟩] 1 = true
      ∧ activitySelectAllowed [⟨1, Role.agent⟩] [⟨5, some 2, none⟩] 1 ⟨5⟩ = false := by
  decide

/-- **C1, amended.** The `lead_activities` SELECT policy allows a caller
exactly when some parent `buyer_leads` row exists and the caller has *write*
(update) access to it — admin, creator, or assignee — not mere read access. -/
theorem c1_amended (profiles : List Profile) (leads : List LeadOwnership)
    (uid : Nat) (a : ActivityRow) :
    activitySelectAllowed profiles leads uid a = true
      ↔ ∃ bl ∈ leads, bl.id = a.lead_id ∧ leadUpdateAllowed profiles uid bl = true := by
  simp only [activitySelectAllowed, leadUpdateAllowed, List.any_eq_true,
    Bool.and_eq_true, Bool.or_eq_true, decide_eq_true_eq]
  constructor
  · rintro ⟨bl, hbl, hid, hw⟩
    exact ⟨bl, hbl, hid, Or.inr hw⟩
  · rintro ⟨bl, hbl, hid, hw | hw⟩
    · exact ⟨bl, hbl, hid, Or.inl (Or.inl hw)⟩
    · exact ⟨bl, hbl, hid, hw⟩

/-- **C2, counterexample.** The claim says a `viewer` is denied every update,
including on rows they created.  False: the UPDATE policy is
`role = 'admin' OR created_by = uid OR assigned_to = uid` with no role gate,
so a viewer (uid 1) who is the recorded creator of a lead may update it. -/
theorem c2_cex :
    get_user_role [⟨1, Role.viewer⟩] 1 = some Role.viewer
      ∧ leadUpdateAllowed [⟨1, Role.viewer⟩] 1 ⟨0, some 1, none⟩ = true := by
  decide

/-- **C2, amended.** A caller with role `viewer` can read every lead; every
insert and delete attempt is denied; an update is denied unless the viewer is
the row's recorded creator or current assignee, in which case it is allowed. -/
theorem c2_amended (profiles : List Profile) (uid : Nat) (row : LeadOwnership)
    (h : get_user_role profiles uid = some Role.viewer) :
    leadSelectAllowed profiles uid = true
      ∧ leadInsertAllowed profiles uid = false
      ∧ leadDeleteAllowed profiles uid = false
      ∧ (leadUpdateAllowed profiles uid row = true
          ↔ (row.created_by = some uid ∨ row.assigned_to = some uid)) := by
  simp [leadSelectAllowed, leadInsertAllowed, leadDeleteAllowed,
    leadUpdateAllowed, h]

/-- Witness for `c2_amended` at a concrete viewer and lead row. -/
theorem c2_witness :
    leadSelectAllowed [⟨1, Role.viewer⟩] 1 = true
      ∧ leadInsertAllowed [⟨1, Role.viewer⟩] 1 = false
      ∧ leadDeleteAllowed [⟨1, Role.viewer⟩] 1 = false
      ∧ (leadUpdateAllowed [⟨1, Role.viewer⟩] 1 ⟨0, none, some 1⟩ = true
          ↔ ((⟨0, none, some 1⟩ : LeadOwnership).created_by = some 1
              ∨ (⟨0, none, some 1⟩ : LeadOwnership).assigned_to = some 1)) :=
  c2_amended [⟨1, Role.viewer⟩] 1 ⟨0, none, some 1⟩ (by decide)

/-! ## Claims about the schema constraints -/

/-- **C8, counterexample.** The claim says every stored lead has
`priority ∈ {1,…,5}`.  False: the `priority` column is nullable and
`CHECK (priority >= 1 AND priority <= 5)` is not falsified by SQL `NULL`, so
an insert supplying `NULL` priority is accepted and stores a lead whose
priority is in none of `{1,…,5}` (the import pipeline itself produces such a
payload when the CSV priority cell is not numeric: `parseInt` gives `NaN`,
serialized as `null`). -/
theorem c8_cex :
    insertLeadRow [] ⟨some (str "new"), some (str "website"), none⟩
      = ([⟨some (str "new"), some (str "website"), none⟩], true)
      ∧ (⟨some (str "new"), some (str "website"), none⟩ : LeadConstrained).priority
          ∉ [some (1 : Int), some 2, some 3, some 4, some 5] := by
  decide

/-- **C8, amended.** Every *non-null* stored value is constrained: a table in
which every row passes the checks keeps that invariant under inserts and
updates; an insert or update supplying a non-null `status`/`source` outside
its enumeration or a non-null priority outside `[1,5]` is rejected and leaves
the stored state unchanged (`NULL` values are accepted). -/
theorem c8_amended (db : List LeadConstrained) (v : LeadConstrained) (i : Nat)
    (hdb : ∀ l ∈ db, leadRowAccepted l = true) :
    (leadRowAccepted v = false →
      insertLeadRow db v = (db, false) ∧ updateLeadRow db i v = (db, false))
      ∧ (∀ l ∈ (insertLeadRow db v).1, leadRowAccepted l = true
          ∨ (insertLeadRow db v).2 = false)
      ∧ (∀ l ∈ (updateLeadRow db i v).1, leadRowAccepted l = true
          ∨ (updateLeadRow db i v).2 = false)
      ∧ ((∃ s, v.status = some s ∧ s ∉ statusLiterals)
            ∨ (∃ s, v.source = some s ∧ s ∉ sourceLiterals)
            ∨ (∃ p, v.priority = some p ∧ ¬(1 ≤ p ∧ p ≤ 5)) →
          leadRowAccepted v = false) := by
  refine ⟨?_, ?_, ?_, ?_⟩
  · intro hv
    simp [insertLeadRow, updateLeadRow, hv]
  · intro l hl
    by_cases hv : leadRowAccepted v = true
    · left
      simp only [insertLeadRow, hv, if_true] at hl
      rcases List.mem_append.1 hl with h | h
      · exact hdb l h
      · rw [List.mem_singleton.1 h]
        exact hv
    · have hv' : leadRowAccepted v = false := by simpa using hv
      right
      simp [insertLeadRow, hv']
  · intro l hl
    by_cases hv : leadRowAccepted v = true
    · left
      simp only [updateLeadRow, hv, if_true] at hl
      rcases List.mem_or_eq_of_mem_set hl with h | h
      · exact hdb l h
      · rw [h]
        exact hv
    · have hv' : leadRowAccepted v = false := by simpa using hv
      right
      simp [updateLeadRow, hv']
  · rintro (⟨s, hs, hmem⟩ | ⟨s, hs, hmem⟩ | ⟨p, hp, hb⟩)
    · simp [leadRowAccepted, hs, hmem]
    · simp [leadRowAccepted, hs, hmem]
    · simp only [leadRowAccepted, hp, Bool.and_eq_false_iff]
      right
      simp only [decide_eq_false_iff_not]
      exact not_and_or.1 hb

/-- Witness for `c8_amended`: a non-null out-of-range priority is rejected and
leaves the table unchanged. -/
theorem c8_witness :
    insertLeadRow [] ⟨none, none, some 9⟩ = ([], false)
      ∧ updateLeadRow [] 0 ⟨none, none, some 9⟩ = ([], false) :=
  (c8_amended [] ⟨none, none, some 9⟩ 0 (by intro l hl; cases hl)).1 (by decide)

/-! ## Claims about the export of zero visible leads -/

/-- **C9, counterexample.** The claim says exporting zero visible leads yields
an empty export.  False: `handleExport` early-returns with the "No Data"
notice and produces no CSV file at all (in particular not the empty export,
the header-only CSV). -/
theorem c9_cex :
    handleExport (.ok []) = ExportOutcome.noData
      ∧ handleExport (.ok []) ≠ ExportOutcome.csvFile (exportCsv []) := by
  constructor
  · rfl
  · intro h
    cases h

/-- **C9, amended.** When the caller has zero visible leads the underlying
query succeeds with an empty result set and no error is raised, but the
operation produces no CSV file: it ends with the "No Data" notice instead of
an empty export. -/
theorem c9_amended :
    handleExport (.ok []) = ExportOutcome.noData
      ∧ (∀ e, handleExport (.ok []) ≠ ExportOutcome.failed e)
      ∧ (∀ cnt, handleExport (.ok []) ≠ ExportOutcome.csvFile cnt) := by
  refine ⟨rfl, ?_, ?_⟩
  · intro e h
    cases h
  · intro cnt h
    cases h

/-! ## Generic list and trim lemmas -/

theorem dropWhile_eq_self_of_head {p : Char → Bool} {l : List Char}
    (h : ∀ c, l.head? = some c → p c = false) : l.dropWhile p = l := by
  cases l with
  | nil => rfl
  | cons c cs => simp [List.dropWhile, h c rfl]

theorem mem_dropWhile_of_mem {p : Char → Bool} {l : List Char} {c : Char}
    (hc : c ∈ l) (hpc : p c = false) : c ∈ l.dropWhile p := by
  induction l with
  | nil => cases hc
  | cons a as ih =>
    by_cases hpa : p a = true
    · rw [List.dropWhile_cons_of_pos hpa]
      rcases List.mem_cons.1 hc with h | h
      · exact absurd (h ▸ hpa) (by simp [hpc])
      · exact ih h
    · rw [List.dropWhile_cons_of_neg hpa]
      exact hc

theorem mem_jsTrim {l : List Char} {c : Char} (hc : c ∈ l)
    (hw : c.isWhitespace = false) : c ∈ jsTrim l := by
  unfold jsTrim
  rw [List.mem_reverse]
  exact mem_dropWhile_of_mem
    (by rw [List.mem_reverse]; exact mem_dropWhile_of_mem hc hw) hw

theorem jsTrim_ne_nil {l : List Char} {c : Char} (hc : c ∈ l)
    (hw : c.isWhitespace = false) : jsTrim l ≠ [] := by
  intro h
  have := mem_jsTrim hc hw
  rw [h] at this
  cases this

/-! ## Structure lemmas about the import loop -/

theorem csvParse_inv {headers vals : List (List Char)} {d : CSVImportData}
    (h : csvImportSchemaParse headers vals = .ok d) :
    rowLookup headers vals (str "first_name") = some d.first_name
      ∧ rowLookup headers vals (str "last_name") = some d.last_name
      ∧ rowLookup headers vals (str "email") = some d.email
      ∧ isValidEmail d.email = true
      ∧ d.phone = rowLookup headers vals (str "phone")
      ∧ d.budget_min = rowLookup headers vals (str "budget_min")
      ∧ d.budget_max = rowLookup headers vals (str "budget_max")
      ∧ d.preferred_areas = rowLookup headers vals (str "preferred_areas")
      ∧ d.property_type = rowLookup headers vals (str "property_type")
      ∧ d.bedrooms = rowLookup headers vals (str "bedrooms")
      ∧ d.bathrooms = rowLookup headers vals (str "bathrooms")
      ∧ d.status = rowLookup headers vals (str "status")
      ∧ d.source = rowLookup headers vals (str "source")
      ∧ d.priority = rowLookup headers vals (str "priority")
      ∧ d.notes = rowLookup headers vals (str "notes") := by
  unfold csvImportSchemaParse at h
  split at h
  · exact Except.noConfusion h
  · split at h
    · exact Except.noConfusion h
    · split at h
      · exact Except.noConfusion h
      · split at h
        · injection h with h2
          subst h2
          refine ⟨by assumption, by assumption, by assumption, by assumption,
            rfl, rfl, rfl, rfl, rfl, rfl, rfl, rfl, rfl, rfl, rfl⟩
        · exact Except.noConfusion h

theorem importFold_eq (ins : LeadData → Bool) (uid : Nat)
    (headers : List (List Char)) (rows : List (Nat × List Char))
    (hrows : ∀ p ∈ rows, jsTrim p.2 ≠ []) (n : Nat) (es : List RowError)
    (ls : List LeadData) :
    rows.foldl (importStep ins uid headers) (n, es, ls)
      = (n + (okOutcomes ins uid headers rows).length,
         es ++ errOutcomes ins uid headers rows,
         ls ++ okOutcomes ins uid headers rows) := by
  induction rows generalizing n es ls with
  | nil => simp [okOutcomes, errOutcomes]
  | cons p ps ih =>
    have hp : jsTrim p.2 ≠ [] := hrows p (List.mem_cons_self _ _)
    have hps : ∀ q ∈ ps, jsTrim q.2 ≠ [] := fun q hq => hrows q (List.mem_cons_of_mem _ hq)
    rw [List.foldl_cons]
    cases himp : importRow ins uid headers p.2 with
    | ok ld =>
      rw [show importStep ins uid headers (n, es, ls) p = (n + 1, es, ls ++ [ld]) from by
        simp [importStep, hp, himp]]
      rw [ih hps]
      simp [okOutcomes, errOutcomes, List.filterMap_cons, himp, Except.toOption]
      omega
    | error e =>
      rw [show importStep ins uid headers (n, es, ls) p
          = (n, es ++ [⟨p.1 + 2, e⟩], ls) from by simp [importStep, hp, himp]]
      rw [ih hps]
      simp [okOutcomes, errOutcomes, List.filterMap_cons, himp, Except.toOption]

theorem outcomes_partition (ins : LeadData → Bool) (uid : Nat)
    (headers : List (List Char)) (rows : List (Nat × List Char)) :
    (okOutcomes ins uid headers rows).length
        + (errOutcomes ins uid headers rows).length = rows.length := by
  induction rows with
  | nil => rfl
  | cons p ps ih =>
    cases himp : importRow ins uid headers p.2 <;>
      simp [okOutcomes, errOutcomes, List.filterMap_cons, himp, Except.toOption] at * <;>
      omega

theorem handleFileImport_ok_inv {ins : LeadData → Bool} {uid : Nat} {text : String}
    {res : ImportResult} {lds : List LeadData}
    (h : handleFileImport ins uid text = .ok (res, lds)) :
    ∃ hd tl, (text.data.splitOn '\n').filter (fun l => jsTrim l ≠ []) = hd :: tl
      ∧ tl ≠ []
      ∧ res.total = tl.length
      ∧ res.errors = errOutcomes ins uid ((parseCsvLine hd).map normalizeHeader) tl.enum
      ∧ lds = okOutcomes ins uid ((parseCsvLine hd).map normalizeHeader) tl.enum
      ∧ res.success
          = (okOutcomes ins uid ((parseCsvLine hd).map normalizeHeader) tl.enum).length := by
  unfold handleFileImport at h
  by_cases h2 : ((text.data.splitOn '\n').filter (fun l => jsTrim l ≠ [])).length < 2
  · rw [if_pos h2] at h
    exact Except.noConfusion h
  · rw [if_neg h2] at h
    cases hl : (text.data.splitOn '\n').filter (fun l => jsTrim l ≠ []) with
    | nil =>
      rw [hl] at h
      exact Except.noConfusion h
    | cons hd tl =>
      rw [hl] at h
      dsimp only at h
      by_cases hm : requiredFields.filter
          (fun g => !((parseCsvLine hd).map normalizeHeader).contains g) ≠ []
      · rw [if_pos hm] at h
        exact Except.noConfusion h
      · rw [if_neg hm] at h
        have htl : tl ≠ [] := by
          intro hnil
          rw [hl, hnil] at h2
          exact h2 (by simp)
        have hrows : ∀ p ∈ tl.enum, jsTrim p.2 ≠ [] := by
          intro p hp
          have hmem : p.2 ∈ tl := by
            have := List.mem_enum_iff_getElem?.1 hp
            exact List.getElem?_mem this
          have hmem' : p.2 ∈ (text.data.splitOn '\n').filter (fun l => jsTrim l ≠ []) := by
            rw [hl]
            exact List.mem_cons_of_mem _ hmem
          have := List.of_mem_filter hmem'
          simpa using this
        rw [importFold_eq _ _ _ _ hrows] at h
        injection h with h3
        injection h3 with hres hlds
        refine ⟨hd, tl, rfl, htl, ?_, ?_, ?_, ?_⟩
        · rw [← hres]
        · rw [← hres]
          simp
        · rw [← hlds]
          simp
        · rw [← hres]
          simp

/-! ## Claims about the import pipeline's failure handling -/

/-- **C5.** An input with fewer than two non-empty lines, or whose first
non-empty line (the header row) lacks a required column after normalization,
makes the import a whole-operation failure: the result is an error, no lead is
inserted, and the outcome does not depend on the data store at all (no row is
ever processed). -/
theorem c5_thm (ins : LeadData → Bool) (uid : Nat) (text : String)
    (h : ((text.data.splitOn '\n').filter (fun l => jsTrim l ≠ [])).length < 2
      ∨ ∀ hd tl, (text.data.splitOn '\n').filter (fun l => jsTrim l ≠ []) = hd :: tl →
          ∃ f ∈ requiredFields, f ∉ (parseCsvLine hd).map normalizeHeader) :
    (∃ e, handleFileImport ins uid text = .error e)
      ∧ ∀ ins' : LeadData → Bool,
          handleFileImport ins' uid text = handleFileImport ins uid text := by
  by_cases h2 : ((text.data.splitOn '\n').filter (fun l => jsTrim l ≠ [])).length < 2
  · have e1 : ∀ ins0 : LeadData → Bool, handleFileImport ins0 uid text
        = .error "CSV file must contain at least a header row and one data row" := by
      intro ins0
      unfold handleFileImport
      rw [if_pos h2]
    exact ⟨⟨_, e1 ins⟩, fun ins' => (e1 ins').trans (e1 ins).symm⟩
  · rcases h with hlen | hmiss
    · exact absurd hlen h2
    cases hl : (text.data.splitOn '\n').filter (fun l => jsTrim l ≠ []) with
    | nil => exact absurd (by rw [hl]; simp) h2
    | cons hd tl =>
      obtain ⟨f, hf, hnot⟩ := hmiss hd tl hl
      have hm : requiredFields.filter
          (fun g => !((parseCsvLine hd).map normalizeHeader).contains g) ≠ [] := by
        refine List.ne_nil_of_mem (List.mem_filter.2 ⟨hf, ?_⟩)
        simpa using hnot
      have e1 : ∀ ins0 : LeadData → Bool, handleFileImport ins0 uid text
          = .error "Missing required columns" := by
        intro ins0
        unfold handleFileImport
        rw [if_neg h2, hl]
        dsimp only
        rw [if_pos hm]
      exact ⟨⟨_, e1 ins⟩, fun ins' => (e1 ins').trans (e1 ins).symm⟩

/-- Witness for `c5_thm`: a one-line file is rejected whole. -/
theorem c5_witness :
    (∃ e, handleFileImport dbInsertAccepts 0 "just one line" = .error e)
      ∧ ∀ ins' : LeadData → Bool,
          handleFileImport ins' 0 "just one line"
            = handleFileImport dbInsertAccepts 0 "just one line" :=
  c5_thm dbInsertAccepts 0 "just one line" (Or.inl (by decide))

/-- **C6.** When the line and header checks pass, the import attempts every
non-empty data row: the tallies come from a per-row outcome list (so no row
failure aborts the batch and the report reflects all rows), and
`success + #errors = total` with `total` the number of data rows. -/
theorem c6_thm (ins : LeadData → Bool) (uid : Nat) (text : String)
    (res : ImportResult) (lds : List LeadData)
    (h : handleFileImport ins uid text = .ok (res, lds)) :
    res.success + res.errors.length = res.total
      ∧ res.success = lds.length
      ∧ ∀ hd tl, (text.data.splitOn '\n').filter (fun l => jsTrim l ≠ []) = hd :: tl →
          res.total = tl.length
            ∧ res.errors = errOutcomes ins uid ((parseCsvLine hd).map normalizeHeader) tl.enum
            ∧ lds = okOutcomes ins uid ((parseCsvLine hd).map normalizeHeader) tl.enum := by
  obtain ⟨hd, tl, hl, htl, htot, herr, hlds, hsucc⟩ := handleFileImport_ok_inv h
  refine ⟨?_, ?_, ?_⟩
  · rw [htot, herr, hsucc]
    have hp := outcomes_partition ins uid ((parseCsvLine hd).map normalizeHeader) tl.enum
    rw [List.enum_length] at hp
    exact hp
  · rw [hsucc, hlds]
  · intro hd' tl' hl'
    rw [hl] at hl'
    injection hl' with hh ht
    subst hh
    subst ht
    exact ⟨htot, herr, hlds⟩

/-- Witness for `c6_thm` on a concrete two-row import with one failing row. -/
theorem c6_witness :
    ((⟨1, [⟨3, "first_name: Required"⟩], 2⟩ : ImportResult).success
        + (⟨1, [⟨3, "first_name: Required"⟩], 2⟩ : ImportResult).errors.length
        = (⟨1, [⟨3, "first_name: Required"⟩], 2⟩ : ImportResult).total)
      ∧ ((⟨1, [⟨3, "first_name: Required"⟩], 2⟩ : ImportResult).success = [sampleLead].length)
      ∧ ∀ hd tl,
          ("first_name,last_name,email\nJohn,Doe,john@x.com\n,Smith,jane@x.com".data.splitOn
              '\n').filter (fun l => jsTrim l ≠ []) = hd :: tl →
            (⟨1, [⟨3, "first_name: Required"⟩], 2⟩ : ImportResult).total = tl.length
              ∧ (⟨1, [⟨3, "first_name: Required"⟩], 2⟩ : ImportResult).errors
                  = errOutcomes dbInsertAccepts 0 ((parseCsvLine hd).map normalizeHeader) tl.enum
              ∧ [sampleLead]
                  = okOutcomes dbInsertAccepts 0 ((parseCsvLine hd).map normalizeHeader) tl.enum :=
  c6_thm dbInsertAccepts 0
    "first_name,last_name,email\nJohn,Doe,john@x.com\n,Smith,jane@x.com"
    ⟨1, [⟨3, "first_name: Required"⟩], 2⟩ [sampleLead] (by rfl)

/-- **C7, counterexample.** The claim says the recorded row number equals the
failing row's 1-based line number in the original file.  False when the file
contains a blank line: here the failing data row is physical line 3 of the
file (index 2), but the loop records row 2, because it numbers rows by their
position among the *non-empty* lines. -/
theorem c7_cex :
    handleFileImport dbInsertAccepts 0 "first_name,last_name,email\n\n,Smith,jane@x.com"
      = .ok (⟨0, [⟨2, "first_name: Required"⟩], 1⟩, [])
      ∧ ("first_name,last_name,email\n\n,Smith,jane@x.com".data.splitOn '\n')[2]?
          = some (str ",Smith,jane@x.com")
      ∧ (2 : Nat) ≠ 2 + 1 := by
  exact ⟨by rfl, by rfl, by decide⟩

/-- **C7, amended.** Every recorded import error carries
`row = k + 2` where `k` is the 0-based index of the failing row among the
*non-empty* data lines (equal to the original-file line number only when the
file has no blank lines); on the spec's concrete example — header
`first_name,last_name,email`, rows `John,Doe,john@x.com` and
`,Smith,jane@x.com` — the result is `successCount 1, total 2` and exactly one
error with `row 3`. -/
theorem c7_amended (ins : LeadData → Bool) (uid : Nat) (text : String)
    (res : ImportResult) (lds : List LeadData)
    (h : handleFileImport ins uid text = .ok (res, lds)) :
    (∀ er ∈ res.errors, ∀ hd tl,
        (text.data.splitOn '\n').filter (fun l => jsTrim l ≠ []) = hd :: tl →
          ∃ k line, tl[k]? = some line ∧ er.row = k + 2
            ∧ importRow ins uid ((parseCsvLine hd).map normalizeHeader) line
                = .error er.error)
      ∧ handleFileImport dbInsertAccepts 0
            "first_name,last_name,email\nJohn,Doe,john@x.com\n,Smith,jane@x.com"
          = .ok (⟨1, [⟨3, "first_name: Required"⟩], 2⟩, [sampleLead]) := by
  obtain ⟨hd, tl, hl, htl, htot, herr, hlds, hsucc⟩ := handleFileImport_ok_inv h
  refine ⟨?_, by rfl⟩
  intro er her hd' tl' hl'
  rw [hl] at hl'
  injection hl' with hh ht
  subst hh
  subst ht
  rw [herr] at her
  obtain ⟨p, hp, hmk⟩ := List.mem_filterMap.1 her
  rcases himp : importRow ins uid ((parseCsvLine hd).map normalizeHeader) p.2 with e | ld
  · rw [himp] at hmk
    injection hmk with hmk'
    refine ⟨p.1, p.2, ?_, ?_, ?_⟩
    · exact List.mem_enum_iff_getElem?.1 hp
    · rw [← hmk']
    · rw [← hmk']
      exact himp
  · rw [himp] at hmk
    exact Option.noConfusion hmk

/-- Witness for `c7_amended` at the spec's concrete example. -/
theorem c7_witness :
    (∀ er ∈ (⟨1, [⟨3, "first_name: Required"⟩], 2⟩ : ImportResult).errors, ∀ hd tl,
        ("first_name,last_name,email\nJohn,Doe,john@x.com\n,Smith,jane@x.com".data.splitOn
            '\n').filter (fun l => jsTrim l ≠ []) = hd :: tl →
          ∃ k line, tl[k]? = some line ∧ er.row = k + 2
            ∧ importRow dbInsertAccepts 0 ((parseCsvLine hd).map normalizeHeader) line
                = .error er.error)
      ∧ handleFileImport dbInsertAccepts 0
            "first_name,last_name,email\nJohn,Doe,john@x.com\n,Smith,jane@x.com"
          = .ok (⟨1, [⟨3, "first_name: Required"⟩], 2⟩, [sampleLead]) :=
  c7_amended dbInsertAccepts 0
    "first_name,last_name,email\nJohn,Doe,john@x.com\n,Smith,jane@x.com"
    ⟨1, [⟨3, "first_name: Required"⟩], 2⟩ [sampleLead] (by rfl)

/-! ## Claims about the import defaults -/

/-- **C4, counterexample.** The claim says a validated row with no `source`
value is inserted with source `website`.  False: the conversion is
`(validatedData.source as any) || 'other'`, so the inserted lead's source is
`other`. -/
theorem c4_cex :
    handleFileImport dbInsertAccepts 0 "first_name,last_name,email\nJohn,Doe,john@x.com"
      = .ok (⟨1, [], 1⟩, [sampleLead])
      ∧ sampleLead.source = str "other"
      ∧ str "other" ≠ str "website" := by
  exact ⟨by rfl, by rfl, by decide⟩

/-- **C4, amended.** The validated row's `status`/`source`/`priority` are the
row-object lookups, and the only default substitutions the conversion applies
are `status='new'`, `source='other'` (not `website`), `priority=3`. -/
theorem c4_amended (headers vals : List (List Char)) (d : CSVImportData) (uid : Nat)
    (h : csvImportSchemaParse headers vals = .ok d) :
    d.status = rowLookup headers vals (str "status")
      ∧ d.source = rowLookup headers vals (str "source")
      ∧ d.priority = rowLookup headers vals (str "priority")
      ∧ (d.status = none → (toLeadData uid d).status = str "new")
      ∧ (d.source = none → (toLeadData uid d).source = str "other")
      ∧ (d.priority = none → (toLeadData uid d).priority = some 3)
      ∧ str "other" ≠ str "website" := by
  obtain ⟨-, -, -, -, -, -, -, -, -, -, -, hstat, hsrc, hpri, -⟩ := csvParse_inv h
  refine ⟨hstat, hsrc, hpri, ?_, ?_, ?_, by decide⟩
  · intro h0
    simp [toLeadData, orElseStr, h0]
  · intro h0
    simp [toLeadData, orElseStr, h0]
  · intro h0
    simp [toLeadData, truthy, h0]

/-- Witness for `c4_amended` on a row with only the required columns. -/
theorem c4_witness :
    (none : Option (List Char)) = rowLookup [str "first_name", str "last_name", str "email"]
        [str "John", str "Doe", str "john@x.com"] (str "status")
      ∧ (none : Option (List Char)) = rowLookup [str "first_name", str "last_name", str "email"]
          [str "John", str "Doe", str "john@x.com"] (str "source")
      ∧ (none : Option (List Char)) = rowLookup [str "first_name", str "last_name", str "email"]
          [str "John", str "Doe", str "john@x.com"] (str "priority")
      ∧ ((none : Option (List Char)) = none →
          (toLeadData 0 ⟨str "John", str "Doe", str "john@x.com", none, none, none, none,
              none, none, none, none, none, none, none⟩).status = str "new")
      ∧ ((none : Option (List Char)) = none →
          (toLeadData 0 ⟨str "John", str "Doe", str "john@x.com", none, none, none, none,
              none, none, none, none, none, none, none⟩).source = str "other")
      ∧ ((none : Option (List Char)) = none →
          (toLeadData 0 ⟨str "John", str "Doe", str "john@x.com", none, none, none, none,
              none, none, none, none, none, none, none⟩).priority = some 3)
      ∧ str "other" ≠ str "website" :=
  c4_amended [str "first_name", str "last_name", str "email"]
    [str "John", str "Doe", str "john@x.com"]
    ⟨str "John", str "Doe", str "john@x.com", none, none, none, none, none, none, none,
      none, none, none, none⟩ 0 (by rfl)

/-! ## Claims about empty cells and short rows (header/value mapping) -/

theorem rowLookup_foldl_erase (i : Nat) (headers vals : List (List Char))
    (h : List Char) (hv : vals[i]? = some []) (acc : Option (List Char)) :
    (headers.zip vals).foldl
        (fun acc p => if p.1 = h && p.2 ≠ [] then some p.2 else acc) acc
      = ((headers.eraseIdx i).zip (vals.eraseIdx i)).foldl
          (fun acc p => if p.1 = h && p.2 ≠ [] then some p.2 else acc) acc := by
  induction i generalizing headers vals acc with
  | zero =>
    cases vals with
    | nil => simp at hv
    | cons v vs =>
      have hv0 : v = [] := by simpa using hv
      subst hv0
      cases headers with
      | nil => rfl
      | cons h1 hs =>
        simp [List.eraseIdx]
  | succ i ih =>
    cases vals with
    | nil => simp at hv
    | cons v vs =>
      cases headers with
      | nil => rfl
      | cons h1 hs =>
        simp only [List.zip_cons_cons, List.foldl_cons, List.eraseIdx]
        exact ih hs vs (by simpa using hv) _

theorem rowLookup_erase (i : Nat) (headers vals : List (List Char))
    (hv : vals[i]? = some []) (h : List Char) :
    rowLookup headers vals h
      = rowLookup (headers.eraseIdx i) (vals.eraseIdx i) h :=
  rowLookup_foldl_erase i headers vals h hv none

theorem csvParse_erase (i : Nat) (headers vals : List (List Char))
    (hv : vals[i]? = some []) :
    csvImportSchemaParse headers vals
      = csvImportSchemaParse (headers.eraseIdx i) (vals.eraseIdx i) := by
  unfold csvImportSchemaParse
  simp only [rowLookup_erase i headers vals hv]

theorem rowLookup_none_of (headers vals : List (List Char)) (h : List Char)
    (hall : ∀ j : Nat, headers[j]? = some h → vals[j]? = some [] ∨ vals[j]? = none) :
    rowLookup headers vals h = none := by
  induction headers generalizing vals with
  | nil => rfl
  | cons h1 hs ih =>
    cases vals with
    | nil => rfl
    | cons v vs =>
      unfold rowLookup
      simp only [List.zip_cons_cons, List.foldl_cons]
      have step0 : (if h1 = h && v ≠ [] then some v else none)
          = (none : Option (List Char)) := by
        by_cases hh : h1 = h
        · have := hall 0 (by simp [hh])
          have hv0 : v = [] := by
            rcases this with h' | h'
            · simpa using h'
            · simp at h'
          simp [hv0]
        · simp [hh]
      rw [step0]
      refine ih vs (fun j hj => ?_)
      have := hall (j + 1) (by simpa using hj)
      simpa using this

/-- **C10.** In the header/value mapping, a parsed empty cell is omitted, so
(i) a row with an empty cell behaves exactly as if that column were absent
from both the header and the row; (ii) with duplicate-free headers, an empty
(or missing) cell in a required column makes the row fail validation; and
(iii) a row whose cells beyond the required ones are missing (fewer cells
than headers) is not by itself an error: validation succeeds whenever the
three required lookups succeed and the email is valid. -/
theorem c10_thm :
    (∀ (headers vals : List (List Char)) (i : Nat), vals[i]? = some [] →
        csvImportSchemaParse headers vals
          = csvImportSchemaParse (headers.eraseIdx i) (vals.eraseIdx i))
      ∧ (∀ (headers vals : List (List Char)) (i : Nat) (f : List Char),
          headers.Nodup → headers[i]? = some f → f ∈ requiredFields →
          (vals[i]? = some [] ∨ vals[i]? = none) →
          ∃ e, csvImportSchemaParse headers vals = .error e)
      ∧ (∀ (headers vals : List (List Char)) (a b em : List Char),
          rowLookup headers vals (str "first_name") = some a →
          rowLookup headers vals (str "last_name") = some b →
          rowLookup headers vals (str "email") = some em →
          isValidEmail em = true →
          ∃ d, csvImportSchemaParse headers vals = .ok d
            ∧ d.first_name = a ∧ d.last_name = b ∧ d.email = em) := by
  refine ⟨fun headers vals i hv => csvParse_erase i headers vals hv, ?_, ?_⟩
  · intro headers vals i f hnd hi hf hv
    have hnone : rowLookup headers vals f = none := by
      apply rowLookup_none_of
      intro j hj
      have hij : j = i := by
        have hjlen : j < headers.length := by
          by_contra hge
          push_neg at hge
          rw [List.getElem?_eq_none hge] at hj
          cases hj
        exact List.getElem?_inj hjlen hnd (hj.trans hi.symm)
      rw [hij]
      exact hv
    have hfc : f = str "first_name" ∨ f = str "last_name" ∨ f = str "email" := by
      simpa [requiredFields] using hf
    unfold csvImportSchemaParse
    rcases hfc with rfl | rfl | rfl
    · rw [hnone]
      exact ⟨_, rfl⟩
    · cases hfn : rowLookup headers vals (str "first_name")
      · exact ⟨_, rfl⟩
      · rw [hnone]
        exact ⟨_, rfl⟩
    · cases hfn : rowLookup headers vals (str "first_name")
      · exact ⟨_, rfl⟩
      · cases hln : rowLookup headers vals (str "last_name")
        · exact ⟨_, rfl⟩
        · rw [hnone]
          exact ⟨_, rfl⟩
  · intro headers vals a b em ha hb hem hval
    unfold csvImportSchemaParse
    rw [ha, hb, hem]
    dsimp only
    rw [if_pos hval]
    exact ⟨_, rfl, rfl, rfl, rfl⟩

/-- Witness for `c10_thm`: concrete instances of all three parts — an empty
optional cell equals the column being absent, an empty `first_name` cell fails
the row, and a two-cell row under a three-column header still validates when
the required columns are the ones present. -/
theorem c10_witness :
    (csvImportSchemaParse
        [str "first_name", str "last_name", str "email", str "phone"]
        [str "John", str "Doe", str "john@x.com", []]
      = csvImportSchemaParse
          ([str "first_name", str "last_name", str "email", str "phone"].eraseIdx 3)
          ([str "John", str "Doe", str "john@x.com", ([] : List Char)].eraseIdx 3))
      ∧ (∃ e, csvImportSchemaParse
            [str "first_name", str "last_name", str "email"]
            [[], str "Smith", str "jane@x.com"] = .error e)
      ∧ (∃ d, csvImportSchemaParse
            [str "email", str "first_name", str "last_name", str "phone", str "notes"]
            [str "jane@x.com", str "Jane", str "Smith"] = .ok d
          ∧ d.first_name = str "Jane" ∧ d.last_name = str "Smith"
          ∧ d.email = str "jane@x.com") :=
  ⟨c10_thm.1 [str "first_name", str "last_name", str "email", str "phone"]
      [str "John", str "Doe", str "john@x.com", []] 3 (by rfl),
   c10_thm.2.1 [str "first_name", str "last_name", str "email"]
      [[], str "Smith", str "jane@x.com"] 0 (str "first_name") (by decide) (by rfl)
      (by decide) (Or.inl (by rfl)),
   c10_thm.2.2 [str "email", str "first_name", str "last_name", str "phone", str "notes"]
      [str "jane@x.com", str "Jane", str "Smith"] (str "Jane") (str "Smith")
      (str "jane@x.com") (by rfl) (by rfl) (by rfl) (by rfl)⟩

/-! ## The export/import round trip (C3) -/


theorem digitsToNat_general (ys : List Char) (a : Nat) :
    ys.foldl (fun x c => 10 * x + (c.toNat - 48)) a
      = a * 10 ^ ys.length + digitsToNat ys := by
  induction ys generalizing a with
  | nil => simp [digitsToNat]
  | cons c cs ih =>
    rw [List.foldl_cons]
    rw [ih (10 * a + (c.toNat - 48))]
    have h2 : digitsToNat (c :: cs) = (c.toNat - 48) * 10 ^ cs.length + digitsToNat cs := by
      unfold digitsToNat
      rw [List.foldl_cons, ih (10 * 0 + (c.toNat - 48))]
      ring_nf
      rfl
    rw [h2, List.length_cons]
    ring

theorem digitsToNat_append (xs ys : List Char) :
    digitsToNat (xs ++ ys) = digitsToNat xs * 10 ^ ys.length + digitsToNat ys := by
  unfold digitsToNat
  rw [List.foldl_append, digitsToNat_general]
  rfl

theorem digitsToNat_replicate_zero (k : Nat) :
    digitsToNat (List.replicate k '0') = 0 := by
  induction k with
  | zero => rfl
  | succ n ih =>
    rw [List.replicate_succ]
    unfold digitsToNat at *
    rw [List.foldl_cons]
    simpa using ih

theorem digitChar_toNat {d : Nat} (hd : d < 10) : (Nat.digitChar d).toNat - 48 = d := by
  interval_cases d <;> rfl

theorem digitChar_isDigit {d : Nat} (hd : d < 10) : (Nat.digitChar d).isDigit = true := by
  interval_cases d <;> rfl

theorem digitsToNat_rev_digits (n : Nat) :
    digitsToNat (((Nat.digits 10 n).map Nat.digitChar).reverse) = n := by
  have key : ∀ ds : List Nat, (∀ d ∈ ds, d < 10) →
      digitsToNat ((ds.map Nat.digitChar).reverse) = Nat.ofDigits 10 ds := by
    intro ds
    induction ds with
    | nil => intro _; rfl
    | cons d tl ih =>
      intro hall
      rw [List.map_cons, List.reverse_cons, digitsToNat_append]
      rw [ih (fun x hx => hall x (List.mem_cons_of_mem _ hx))]
      have hd := hall d (List.mem_cons_self _ _)
      have hone : digitsToNat [Nat.digitChar d] = d := by
        unfold digitsToNat
        simp [digitChar_toNat hd]
      rw [hone, Nat.ofDigits_cons]
      simp
      ring
  rw [key (Nat.digits 10 n) (fun d hd => Nat.digits_lt_base (by norm_num) hd)]
  exact Nat.ofDigits_digits 10 n

theorem natChars_digitsToNat (n : Nat) : digitsToNat (natChars n) = n := by
  unfold natChars
  by_cases h : n = 0
  · subst h
    rfl
  · rw [if_neg h]
    exact digitsToNat_rev_digits n

theorem natChars_ne_nil (n : Nat) : natChars n ≠ [] := by
  unfold natChars
  by_cases h : n = 0
  · simp [h]
  · rw [if_neg h]
    intro hc
    rw [List.reverse_eq_nil_iff, List.map_eq_nil_iff] at hc
    exact h (Nat.digits_eq_nil_iff_eq_zero.1 hc)

theorem natChars_all_digit (n : Nat) : ∀ c ∈ natChars n, c.isDigit = true := by
  intro c hc
  unfold natChars at hc
  by_cases h : n = 0
  · rw [if_pos h] at hc
    simp at hc
    subst hc
    rfl
  · rw [if_neg h] at hc
    rw [List.mem_reverse, List.mem_map] at hc
    obtain ⟨d, hd, rfl⟩ := hc
    exact digitChar_isDigit (Nat.digits_lt_base (by norm_num) hd)

theorem digits_length_le_of_lt {fp scale : Nat} (h : fp < 10 ^ scale) :
    (Nat.digits 10 fp).length ≤ scale := by
  by_cases hfp : fp = 0
  · simp [hfp]
  · rw [Nat.digits_len 10 fp (by norm_num) hfp]
    have := Nat.log_lt_of_lt_pow hfp h
    omega

theorem fracChars_all_digit (scale fp : Nat) :
    ∀ c ∈ fracChars scale fp, c.isDigit = true := by
  intro c hc
  unfold fracChars at hc
  rcases List.mem_append.1 hc with h | h
  · rw [List.eq_of_mem_replicate h]
    rfl
  · rw [List.mem_reverse, List.mem_map] at h
    obtain ⟨d, hd, rfl⟩ := h
    exact digitChar_isDigit (Nat.digits_lt_base (by norm_num) hd)

theorem fracChars_length {scale fp : Nat} (h : fp < 10 ^ scale) :
    (fracChars scale fp).length = scale := by
  unfold fracChars
  have := digits_length_le_of_lt h
  simp
  omega

theorem digitsToNat_fracChars (scale fp : Nat) :
    digitsToNat (fracChars scale fp) = fp := by
  unfold fracChars
  rw [digitsToNat_append, digitsToNat_replicate_zero, digitsToNat_rev_digits]
  simp

theorem dropWhile_subset_self {p : Char → Bool} {l : List Char} :
    ∀ c ∈ l.dropWhile p, c ∈ l := by
  intro c hc
  induction l with
  | nil => simp at hc
  | cons a as ih =>
    by_cases hpa : p a = true
    · rw [List.dropWhile_cons_of_pos hpa] at hc
      exact List.mem_cons_of_mem _ (ih hc)
    · rw [List.dropWhile_cons_of_neg hpa] at hc
      exact hc

theorem stripZeros_subset (l : List Char) : ∀ c ∈ stripZeros l, c ∈ l := by
  intro c hc
  unfold stripZeros at hc
  rw [List.mem_reverse] at hc
  have := dropWhile_subset_self _ hc
  rw [List.mem_reverse] at this
  exact this

theorem stripZeros_exists_replicate (l : List Char) :
    ∃ k, l = stripZeros l ++ List.replicate k '0' := by
  refine ⟨(l.reverse.takeWhile (fun c => c = '0')).length, ?_⟩
  have htw : l.reverse.takeWhile (fun c => c = '0')
      = List.replicate (l.reverse.takeWhile (fun c => c = '0')).length '0' := by
    apply List.eq_replicate_of_mem
    intro b hb
    have := List.mem_takeWhile_imp hb
    simpa using this
  calc l = l.reverse.reverse := (List.reverse_reverse l).symm
    _ = (l.reverse.takeWhile (fun c => c = '0')
          ++ l.reverse.dropWhile (fun c => c = '0')).reverse := by
        rw [List.takeWhile_append_dropWhile]
    _ = (l.reverse.dropWhile (fun c => c = '0')).reverse
          ++ (l.reverse.takeWhile (fun c => c = '0')).reverse := by
        rw [List.reverse_append]
    _ = stripZeros l ++ List.replicate (l.reverse.takeWhile (fun c => c = '0')).length '0' := by
        unfold stripZeros
        congr 1
        rw [htw, List.reverse_replicate]
        simp

theorem stripZeros_length_le (l : List Char) : (stripZeros l).length ≤ l.length := by
  obtain ⟨k, hk⟩ := stripZeros_exists_replicate l
  conv_rhs => rw [hk]
  simp

theorem takeWhile_all_of {p : Char → Bool} {xs : List Char}
    (h : ∀ c ∈ xs, p c = true) : xs.takeWhile p = xs := by
  induction xs with
  | nil => rfl
  | cons a as ih =>
    rw [List.takeWhile_cons_of_pos (h a (List.mem_cons_self _ _))]
    rw [ih (fun c hc => h c (List.mem_cons_of_mem _ hc))]

theorem dropWhile_all_of {p : Char → Bool} {xs : List Char}
    (h : ∀ c ∈ xs, p c = true) : xs.dropWhile p = [] := by
  induction xs with
  | nil => rfl
  | cons a as ih =>
    rw [List.dropWhile_cons_of_pos (h a (List.mem_cons_self _ _))]
    exact ih (fun c hc => h c (List.mem_cons_of_mem _ hc))

theorem takeWhile_append_not {p : Char → Bool} {xs : List Char} (y : Char)
    (ys : List Char) (hxs : ∀ c ∈ xs, p c = true) (hy : p y = false) :
    (xs ++ y :: ys).takeWhile p = xs := by
  induction xs with
  | nil =>
    rw [List.nil_append]
    exact List.takeWhile_cons_of_neg (by simp [hy])
  | cons a as ih =>
    rw [List.cons_append, List.takeWhile_cons_of_pos (hxs a (List.mem_cons_self _ _))]
    rw [ih (fun c hc => hxs c (List.mem_cons_of_mem _ hc))]

theorem dropWhile_append_not {p : Char → Bool} {xs : List Char} (y : Char)
    (ys : List Char) (hxs : ∀ c ∈ xs, p c = true) (hy : p y = false) :
    (xs ++ y :: ys).dropWhile p = y :: ys := by
  induction xs with
  | nil =>
    rw [List.nil_append]
    exact List.dropWhile_cons_of_neg (by simp [hy])
  | cons a as ih =>
    rw [List.cons_append, List.dropWhile_cons_of_pos (hxs a (List.mem_cons_self _ _))]
    exact ih (fun c hc => hxs c (List.mem_cons_of_mem _ hc))

theorem parseDecNat_render (scale m : Nat) :
    parseDecNat scale
      (natChars (m / 10 ^ scale)
        ++ (match stripZeros (fracChars scale (m % 10 ^ scale)) with
          | [] => []
          | fs => '.' :: fs)) = some m := by
  have hpow : 0 < 10 ^ scale := by positivity
  have hfp : m % 10 ^ scale < 10 ^ scale := Nat.mod_lt _ hpow
  have hdm := Nat.div_add_mod m (10 ^ scale)
  cases ht : stripZeros (fracChars scale (m % 10 ^ scale)) with
  | nil =>
    have hfp0 : m % 10 ^ scale = 0 := by
      obtain ⟨k, hk⟩ := stripZeros_exists_replicate (fracChars scale (m % 10 ^ scale))
      rw [ht, List.nil_append] at hk
      have hval := digitsToNat_fracChars scale (m % 10 ^ scale)
      rw [hk, digitsToNat_replicate_zero] at hval
      exact hval.symm
    simp only [List.append_nil]
    unfold parseDecNat
    rw [takeWhile_all_of (natChars_all_digit _), dropWhile_all_of (natChars_all_digit _)]
    dsimp only
    rw [if_neg (by simpa using natChars_ne_nil (m / 10 ^ scale))]
    rw [natChars_digitsToNat]
    congr 1
    rw [Nat.mul_comm]
    conv_rhs => rw [← hdm]
    rw [hfp0]
    simp
  | cons f fs =>
    unfold parseDecNat
    rw [takeWhile_append_not '.' _ (natChars_all_digit _) (by rfl)]
    rw [dropWhile_append_not '.' _ (natChars_all_digit _) (by rfl)]
    have hsub : ∀ c ∈ f :: fs, c.isDigit = true := by
      intro c hc
      rw [← ht] at hc
      exact fracChars_all_digit _ _ _ (stripZeros_subset _ _ hc)
    have hlen : (f :: fs).length ≤ scale := by
      have h1 := stripZeros_length_le (fracChars scale (m % 10 ^ scale))
      rw [ht, fracChars_length hfp] at h1
      exact h1
    have hall : (f :: fs).all Char.isDigit = true := by
      rw [List.all_eq_true]
      exact hsub
    have hguard : ((f :: fs).all Char.isDigit
        && !(decide (natChars (m / 10 ^ scale) = []) && decide ((f :: fs) = []))) = true := by
      rw [hall]
      simp [natChars_ne_nil]
    dsimp only
    rw [if_pos rfl, if_pos hguard]
    rw [List.take_of_length_le hlen, List.drop_eq_nil_of_le hlen]
    have hfrac : digitsToNat (f :: fs) * 10 ^ (scale - (f :: fs).length)
        = m % 10 ^ scale := by
      obtain ⟨k, hk⟩ := stripZeros_exists_replicate (fracChars scale (m % 10 ^ scale))
      rw [ht] at hk
      have hval := digitsToNat_fracChars scale (m % 10 ^ scale)
      rw [hk, digitsToNat_append, digitsToNat_replicate_zero, List.length_replicate] at hval
      have h2 := fracChars_length hfp
      rw [hk] at h2
      simp only [List.length_append, List.length_cons, List.length_replicate] at h2
      have hksub : scale - (f :: fs).length = k := by
        simp only [List.length_cons]
        omega
      rw [hksub]
      omega
    rw [show (match ([] : List Char) with
        | d :: _ => if 53 ≤ d.toNat then 1 else 0
        | [] => 0) = 0 from rfl]
    rw [natChars_digitsToNat, hfrac, Nat.add_zero, Nat.mul_comm, hdm]

theorem parseDecChars_neg_head (scale : Nat) (rest : List Char) :
    parseDecChars scale ('-' :: rest)
      = (parseDecNat scale rest).map (fun n => -(Int.ofNat n)) := by
  simp [parseDecChars]

theorem parseDecChars_digit_head (scale : Nat) {c : Char} (cs : List Char)
    (h : c.isDigit = true) :
    parseDecChars scale (c :: cs)
      = (parseDecNat scale (c :: cs)).map (fun n => Int.ofNat n) := by
  simp only [parseDecChars]
  rw [if_neg (fun hEq => by rw [hEq] at h; exact absurd h (by decide))]
  rw [if_neg (fun hEq => by rw [hEq] at h; exact absurd h (by decide))]

theorem parseIntChars_neg_head (rest : List Char) :
    parseIntChars ('-' :: rest) = (parseIntNat rest).map (fun n => -(Int.ofNat n)) := by
  simp [parseIntChars]

theorem parseIntChars_digit_head {c : Char} (cs : List Char) (h : c.isDigit = true) :
    parseIntChars (c :: cs) = (parseIntNat (c :: cs)).map (fun n => Int.ofNat n) := by
  simp only [parseIntChars]
  rw [if_neg (fun hEq => by rw [hEq] at h; exact absurd h (by decide))]
  rw [if_neg (fun hEq => by rw [hEq] at h; exact absurd h (by decide))]

theorem parseIntNat_natChars (m : Nat) : parseIntNat (natChars m) = some m := by
  unfold parseIntNat
  rw [takeWhile_all_of (natChars_all_digit m)]
  rcases hnc : natChars m with _ | ⟨c, cs⟩
  · exact absurd hnc (natChars_ne_nil _)
  · dsimp only
    rw [← hnc, natChars_digitsToNat]

theorem parseDecChars_renderDec (scale : Nat) (v : Int) :
    parseDecChars scale (renderDec scale v) = some v := by
  unfold renderDec
  by_cases hv : v < 0
  · rw [if_pos hv, parseDecChars_neg_head, parseDecNat_render, Option.map_some']
    congr 1
    simp only [Int.ofNat_eq_coe]
    omega
  · rw [if_neg hv]
    rcases hnc : natChars (v.natAbs / 10 ^ scale) with _ | ⟨c, cs⟩
    · exact absurd hnc (natChars_ne_nil _)
    · have hcdig : c.isDigit = true := by
        refine natChars_all_digit (v.natAbs / 10 ^ scale) c ?_
        rw [hnc]
        exact List.mem_cons_self _ _
      rw [List.cons_append, parseDecChars_digit_head _ _ hcdig, ← List.cons_append, ← hnc,
        parseDecNat_render, Option.map_some']
      congr 1
      simp only [Int.ofNat_eq_coe]
      omega

theorem renderDec_zero_scale (v : Int) :
    renderDec 0 v = if v < 0 then '-' :: natChars v.natAbs else natChars v.natAbs := by
  unfold renderDec
  dsimp only
  have h1 : v.natAbs / 10 ^ 0 = v.natAbs := by simp
  have h2 : v.natAbs % 10 ^ 0 = 0 := by simp [Nat.mod_one]
  rw [h1, h2]
  have h3 : stripZeros (fracChars 0 0) = [] := by
    have : fracChars 0 0 = [] := by simp [fracChars]
    rw [this]
    rfl
  rw [h3]
  simp

theorem parseIntChars_renderDec (v : Int) :
    parseIntChars (renderDec 0 v) = some v := by
  rw [renderDec_zero_scale]
  by_cases hv : v < 0
  · rw [if_pos hv, parseIntChars_neg_head, parseIntNat_natChars, Option.map_some']
    congr 1
    simp only [Int.ofNat_eq_coe]
    omega
  · rw [if_neg hv]
    rcases hnc : natChars v.natAbs with _ | ⟨c, cs⟩
    · exact absurd hnc (natChars_ne_nil _)
    · have hcdig : c.isDigit = true := by
        refine natChars_all_digit v.natAbs c ?_
        rw [hnc]
        exact List.mem_cons_self _ _
      rw [parseIntChars_digit_head _ hcdig, ← hnc, parseIntNat_natChars, Option.map_some']
      congr 1
      simp only [Int.ofNat_eq_coe]
      omega

theorem isDigit_not_ws {c : Char} (h : c.isDigit = true) : c.isWhitespace = false := by
  by_contra hw
  rw [Bool.not_eq_false] at hw
  have h4 : ((c = ' ' ∨ c = '\t') ∨ c = '\x0d') ∨ c = '\n' := by
    simpa [Char.isWhitespace] using hw
  rcases h4 with ((rfl | rfl) | rfl) | rfl <;> exact absurd h (by decide)

theorem renderDec_mem (scale : Nat) (v : Int) :
    ∀ c ∈ renderDec scale v, c.isDigit = true ∨ c = '.' ∨ c = '-' := by
  intro c hc
  unfold renderDec at hc
  have hbody : ∀ d ∈ natChars (v.natAbs / 10 ^ scale)
      ++ (match stripZeros (fracChars scale (v.natAbs % 10 ^ scale)) with
        | [] => []
        | fs => '.' :: fs), d.isDigit = true ∨ d = '.' ∨ d = '-' := by
    intro d hd
    rcases List.mem_append.1 hd with h1 | h1
    · exact Or.inl (natChars_all_digit _ d h1)
    · rcases ht : stripZeros (fracChars scale (v.natAbs % 10 ^ scale)) with _ | ⟨f, fs⟩
      · rw [ht] at h1
        simp at h1
      · rw [ht] at h1
        rcases List.mem_cons.1 h1 with rfl | h2
        · exact Or.inr (Or.inl rfl)
        · refine Or.inl (fracChars_all_digit scale (v.natAbs % 10 ^ scale) d ?_)
          refine stripZeros_subset _ d ?_
          rw [ht]
          exact h2
  by_cases hv : v < 0
  · rw [if_pos hv] at hc
    rcases List.mem_cons.1 hc with rfl | h2
    · exact Or.inr (Or.inr rfl)
    · exact hbody c h2
  · rw [if_neg hv] at hc
    exact hbody c hc

theorem renderDec_no_ws (scale : Nat) (v : Int) :
    ∀ c ∈ renderDec scale v, c.isWhitespace = false := by
  intro c hc
  rcases renderDec_mem scale v c hc with h | rfl | rfl
  · exact isDigit_not_ws h
  · rfl
  · rfl

theorem renderDec_not_mem {scale : Nat} {v : Int} {c : Char}
    (h1 : c.isDigit = false) (h2 : c ≠ '.') (h3 : c ≠ '-') :
    c ∉ renderDec scale v := by
  intro hc
  rcases renderDec_mem scale v c hc with h | h | h
  · rw [h1] at h
    cases h
  · exact h2 h
  · exact h3 h

theorem renderDec_ne_nil (scale : Nat) (v : Int) : renderDec scale v ≠ [] := by
  unfold renderDec
  by_cases hv : v < 0
  · rw [if_pos hv]
    simp
  · rw [if_neg hv]
    intro hcontra
    rcases List.append_eq_nil.1 hcontra with ⟨h1, _⟩
    exact natChars_ne_nil _ h1

theorem jsTrim_eq_self_of_no_ws {l : List Char}
    (h : ∀ c ∈ l, c.isWhitespace = false) : jsTrim l = l := by
  unfold jsTrim
  have h1 : l.dropWhile Char.isWhitespace = l :=
    dropWhile_eq_self_of_head (fun c hc => h c (by
      cases l with
      | nil => simp at hc
      | cons a as =>
        rw [List.head?_cons] at hc
        injection hc with hc
        rw [← hc]
        exact List.mem_cons_self _ _))
  rw [h1]
  have h2 : l.reverse.dropWhile Char.isWhitespace = l.reverse :=
    dropWhile_eq_self_of_head (fun c hc => h c (by
      have : c ∈ l.reverse := by
        cases hrev : l.reverse with
        | nil => rw [hrev] at hc; simp at hc
        | cons a as =>
          rw [hrev] at hc
          rw [List.head?_cons] at hc
          injection hc with hc
          rw [← hc]
          exact List.mem_cons_self _ _
      rw [List.mem_reverse] at this
      exact this))
  rw [h2, List.reverse_reverse]

theorem renderDec_trimFixed (scale : Nat) (v : Int) :
    jsTrim (renderDec scale v) = renderDec scale v :=
  jsTrim_eq_self_of_no_ws (renderDec_no_ws scale v)

theorem parseCsvAux_scan_unquoted {s : List Char} (hq : '"' ∉ s) (hcm : ',' ∉ s) :
    ∀ (rest cur : List Char) (acc : List (List Char)),
      parseCsvAux (s ++ rest) cur false acc = parseCsvAux rest (cur ++ s) false acc := by
  induction s with
  | nil => intro rest cur acc; simp
  | cons c cs ih =>
    intro rest cur acc
    rw [List.cons_append]
    simp only [parseCsvAux]
    rw [if_neg (by intro h; subst h; exact hq (List.mem_cons_self _ _))]
    rw [if_neg (by
      simp only [Bool.and_eq_true, decide_eq_true_eq]
      intro hand
      exact hcm (hand.1 ▸ List.mem_cons_self _ _))]
    rw [ih (fun h => hq (List.mem_cons_of_mem _ h))
        (fun h => hcm (List.mem_cons_of_mem _ h)) rest (cur ++ [c]) acc]
    rw [List.append_assoc]
    rfl

theorem parseCsvAux_scan_quoted {s : List Char} (hq : '"' ∉ s) :
    ∀ (rest cur : List Char) (acc : List (List Char)),
      parseCsvAux (s ++ rest) cur true acc = parseCsvAux rest (cur ++ s) true acc := by
  induction s with
  | nil => intro rest cur acc; simp
  | cons c cs ih =>
    intro rest cur acc
    rw [List.cons_append]
    simp only [parseCsvAux]
    rw [if_neg (by intro h; subst h; exact hq (List.mem_cons_self _ _))]
    rw [if_neg (by simp)]
    rw [ih (fun h => hq (List.mem_cons_of_mem _ h)) rest (cur ++ [c]) acc]
    rw [List.append_assoc]
    rfl

theorem parseCsvAux_cell {s : List Char} (hq : '"' ∉ s) :
    ∀ (rest cur : List Char) (acc : List (List Char)),
      parseCsvAux (quoteIfComma s ++ rest) cur false acc
        = parseCsvAux rest (cur ++ s) false acc := by
  intro rest cur acc
  unfold quoteIfComma
  by_cases hcm : s.contains ','
  · rw [if_pos hcm, List.cons_append]
    simp only [parseCsvAux]
    rw [if_pos trivial]
    rw [List.append_assoc]
    simp only [Bool.not_false]
    rw [parseCsvAux_scan_quoted hq (['"'] ++ rest) cur acc]
    rw [List.singleton_append]
    simp only [parseCsvAux]
    rw [if_pos trivial]
    simp only [Bool.not_true]
  · rw [if_neg hcm]
    refine parseCsvAux_scan_unquoted hq ?_ rest cur acc
    intro hmem
    have : s.contains ',' = true := by simpa using hmem
    exact hcm this

theorem parseCsvAux_join (cells : List (List Char)) :
    ∀ (c : List Char), '"' ∉ c → (∀ s ∈ cells, '"' ∉ s) →
      ∀ (cur : List Char) (acc : List (List Char)),
        parseCsvAux (joinSep [','] ((c :: cells).map quoteIfComma)) cur false acc
          = acc ++ jsTrim (cur ++ c) :: cells.map jsTrim := by
  induction cells with
  | nil =>
    intro c hc _ cur acc
    show parseCsvAux (joinSep [','] [quoteIfComma c]) cur false acc = _
    rw [show joinSep [','] [quoteIfComma c] = quoteIfComma c from rfl]
    rw [show quoteIfComma c = quoteIfComma c ++ [] from (List.append_nil _).symm]
    rw [parseCsvAux_cell hc [] cur acc]
    rfl
  | cons c2 cs ih =>
    intro c hc hcells cur acc
    rw [List.map_cons, List.map_cons,
      show joinSep [','] (quoteIfComma c :: quoteIfComma c2 :: cs.map quoteIfComma)
        = quoteIfComma c ++ [','] ++ joinSep [','] (quoteIfComma c2 :: cs.map quoteIfComma)
        from rfl,
      List.append_assoc, ← List.map_cons]
    rw [parseCsvAux_cell hc _ cur acc]
    rw [List.singleton_append]
    simp only [parseCsvAux]
    rw [if_neg (by decide)]
    rw [if_pos (by decide)]
    rw [ih c2 (hcells c2 (List.mem_cons_self _ _))
        (fun s hs => hcells s (List.mem_cons_of_mem _ hs)) [] (acc ++ [jsTrim (cur ++ c)])]
    simp

theorem parseCsvLine_join {cells : List (List Char)} (hne : cells ≠ [])
    (hq : ∀ s ∈ cells, '"' ∉ s) :
    parseCsvLine (joinSep [','] (cells.map quoteIfComma)) = cells.map jsTrim := by
  cases cells with
  | nil => exact absurd rfl hne
  | cons c cs =>
    unfold parseCsvLine
    rw [parseCsvAux_join cs c (hq c (List.mem_cons_self _ _))
        (fun s hs => hq s (List.mem_cons_of_mem _ hs)) [] []]
    simp

theorem joinSep_eq_intercalate (sep : List Char) :
    ∀ xs : List (List Char), joinSep sep xs = sep.intercalate xs
  | [] => by simp [joinSep, List.intercalate]
  | [x] => by simp [joinSep, List.intercalate]
  | x :: y :: xs => by
    rw [show joinSep sep (x :: y :: xs) = x ++ sep ++ joinSep sep (y :: xs) from rfl]
    rw [joinSep_eq_intercalate sep (y :: xs)]
    rw [List.intercalate, List.intercalate]
    rw [List.intersperse_cons_cons]
    simp

theorem splitOn_joinSep {c : Char} {parts : List (List Char)} (hne : parts ≠ [])
    (hc : ∀ p ∈ parts, c ∉ p) :
    (joinSep [c] parts).splitOn c = parts := by
  rw [joinSep_eq_intercalate]
  exact List.splitOn_intercalate parts c hc hne

theorem mem_joinSep {c : Char} {sep : List Char} {xs : List (List Char)}
    (hmem : c ∈ joinSep sep xs) : c ∈ sep ∨ ∃ x ∈ xs, c ∈ x := by
  induction xs with
  | nil => simp [joinSep] at hmem
  | cons x ys ih =>
    cases ys with
    | nil =>
      right
      exact ⟨x, List.mem_cons_self _ _, hmem⟩
    | cons y zs =>
      rw [show joinSep sep (x :: y :: zs) = x ++ sep ++ joinSep sep (y :: zs) from rfl] at hmem
      rcases List.mem_append.1 hmem with h1 | h1
      · rcases List.mem_append.1 h1 with h2 | h2
        · exact Or.inr ⟨x, List.mem_cons_self _ _, h2⟩
        · exact Or.inl h2
      · rcases ih h1 with h2 | ⟨w, hw, hcw⟩
        · exact Or.inl h2
        · exact Or.inr ⟨w, List.mem_cons_of_mem _ hw, hcw⟩

theorem sep_mem_joinSep (c : Char) (x y : List Char) (zs : List (List Char)) :
    c ∈ joinSep [c] (x :: y :: zs) := by
  rw [show joinSep [c] (x :: y :: zs) = x ++ [c] ++ joinSep [c] (y :: zs) from rfl]
  refine List.mem_append.2 (Or.inl ?_)
  exact List.mem_append.2 (Or.inr (List.mem_singleton.2 rfl))

theorem joinSep_ne_nil_of_head {x : List Char} (hx : x ≠ []) (xs : List (List Char))
    (sep : List Char) : joinSep sep (x :: xs) ≠ [] := by
  cases xs with
  | nil => exact hx
  | cons y zs =>
    rw [show joinSep sep (x :: y :: zs) = x ++ sep ++ joinSep sep (y :: zs) from rfl]
    simp [hx]

theorem dropWhile_length_le (p : Char → Bool) (l : List Char) :
    (l.dropWhile p).length ≤ l.length := by
  induction l with
  | nil => simp
  | cons c cs ih =>
    by_cases h : p c = true
    · rw [List.dropWhile_cons_of_pos h]
      exact Nat.le_succ_of_le ih
    · rw [List.dropWhile_cons_of_neg h]

theorem dropWhile_eq_self_of_length {p : Char → Bool} {l : List Char}
    (h : l.length ≤ (l.dropWhile p).length) : l.dropWhile p = l := by
  cases l with
  | nil => rfl
  | cons c cs =>
    by_cases hp : p c = true
    · rw [List.dropWhile_cons_of_pos hp] at h ⊢
      have := dropWhile_length_le p cs
      simp at h
      omega
    · rw [List.dropWhile_cons_of_neg hp]

theorem dropWhile_eq_self_of_jsTrim {l : List Char} (h : jsTrim l = l) :
    l.dropWhile Char.isWhitespace = l := by
  apply dropWhile_eq_self_of_length
  have h1 : (jsTrim l).length ≤ (l.dropWhile Char.isWhitespace).length := by
    unfold jsTrim
    rw [List.length_reverse]
    calc ((l.dropWhile Char.isWhitespace).reverse.dropWhile Char.isWhitespace).length
        ≤ (l.dropWhile Char.isWhitespace).reverse.length :=
          dropWhile_length_le _ _
      _ = (l.dropWhile Char.isWhitespace).length := List.length_reverse _
  rw [h] at h1
  exact h1

theorem revDropWhile_eq_self_of_jsTrim {l : List Char} (h : jsTrim l = l) :
    l.reverse.dropWhile Char.isWhitespace = l.reverse := by
  have hd := dropWhile_eq_self_of_jsTrim h
  have h2 : jsTrim l = (l.reverse.dropWhile Char.isWhitespace).reverse := by
    unfold jsTrim
    rw [hd]
  rw [h] at h2
  have := congrArg List.reverse h2
  rw [List.reverse_reverse] at this
  exact this.symm

theorem head_not_ws_of_jsTrim {l : List Char} {c : Char} (h : jsTrim l = l)
    (hc : l.head? = some c) : c.isWhitespace = false := by
  have hd := dropWhile_eq_self_of_jsTrim h
  cases l with
  | nil => cases hc
  | cons a as =>
    rw [List.head?_cons] at hc
    injection hc with hc
    subst hc
    by_contra hw
    rw [Bool.not_eq_false] at hw
    rw [List.dropWhile_cons_of_pos hw] at hd
    have := dropWhile_length_le Char.isWhitespace as
    have := congrArg List.length hd
    simp at this
    omega

theorem last_not_ws_of_jsTrim {l : List Char} {c : Char} (h : jsTrim l = l)
    (hc : l.getLast? = some c) : c.isWhitespace = false := by
  have hd := revDropWhile_eq_self_of_jsTrim h
  rw [← List.head?_reverse] at hc
  cases hrev : l.reverse with
  | nil =>
    rw [hrev] at hc
    cases hc
  | cons a as =>
    rw [hrev] at hc hd
    rw [List.head?_cons] at hc
    injection hc with hc
    subst hc
    by_contra hw
    rw [Bool.not_eq_false] at hw
    rw [List.dropWhile_cons_of_pos hw] at hd
    have := dropWhile_length_le Char.isWhitespace as
    have := congrArg List.length hd
    simp at this
    omega

theorem jsTrim_eq_self_of_ends {l : List Char}
    (h1 : ∀ c, l.head? = some c → c.isWhitespace = false)
    (h2 : ∀ c, l.getLast? = some c → c.isWhitespace = false) : jsTrim l = l := by
  unfold jsTrim
  rw [dropWhile_eq_self_of_head h1]
  rw [dropWhile_eq_self_of_head (fun c hc => h2 c (by rw [← List.head?_reverse]; exact hc))]
  exact List.reverse_reverse l

theorem head?_append_of_ne_nil {a : List Char} (b : List Char) (h : a ≠ []) :
    (a ++ b).head? = a.head? := by
  cases a with
  | nil => exact absurd rfl h
  | cons x xs => rfl

theorem jsTrim_joinSep {xs : List (List Char)}
    (h : ∀ a ∈ xs, a ≠ [] ∧ jsTrim a = a) (sep : List Char) :
    jsTrim (joinSep sep xs) = joinSep sep xs := by
  induction xs with
  | nil => rfl
  | cons x ys ih =>
    cases ys with
    | nil => exact (h x (List.mem_cons_self _ _)).2
    | cons y zs =>
      obtain ⟨hx_ne, hx_tr⟩ := h x (List.mem_cons_self _ _)
      have hy : ∀ a ∈ y :: zs, a ≠ [] ∧ jsTrim a = a :=
        fun a ha => h a (List.mem_cons_of_mem _ ha)
      have hJ : joinSep sep (y :: zs) ≠ [] :=
        joinSep_ne_nil_of_head (hy y (List.mem_cons_self _ _)).1 zs sep
      rw [show joinSep sep (x :: y :: zs) = x ++ sep ++ joinSep sep (y :: zs) from rfl]
      apply jsTrim_eq_self_of_ends
      · intro c hc
        rw [List.append_assoc, head?_append_of_ne_nil _ hx_ne] at hc
        exact head_not_ws_of_jsTrim hx_tr hc
      · intro c hc
        rw [List.getLast?_append_of_ne_nil _ hJ] at hc
        exact last_not_ws_of_jsTrim (ih hy) hc


theorem map_eq_self_of {l : List (List Char)} {f : List Char → List Char}
    (h : ∀ x ∈ l, f x = x) : l.map f = l := by
  induction l with
  | nil => rfl
  | cons x xs ih =>
    rw [List.map_cons, h x (List.mem_cons_self _ _),
      ih (fun y hy => h y (List.mem_cons_of_mem _ hy))]

theorem statusLit_props {s : List Char} (h : s ∈ statusLiterals) :
    s ≠ [] ∧ jsTrim s = s ∧ '"' ∉ s ∧ ',' ∉ s ∧ '\n' ∉ s := by
  fin_cases h <;> exact ⟨by decide, by decide, by decide, by decide, by decide⟩

theorem sourceLit_props {s : List Char} (h : s ∈ sourceLiterals) :
    s ≠ [] ∧ jsTrim s = s ∧ '"' ∉ s ∧ ',' ∉ s ∧ '\n' ∉ s := by
  fin_cases h <;> exact ⟨by decide, by decide, by decide, by decide, by decide⟩

theorem csvParse_export (l : StoredLead) (h : RoundTrippable l) :
    csvImportSchemaParse exportHeaders (rawCells l)
      = .ok ⟨l.first_name, l.last_name, l.email, l.phone,
          l.budget_min.map (renderDec 2), l.budget_max.map (renderDec 2),
          (match l.preferred_areas with
            | [] => none
            | _ :: _ => some (joinSep [';'] l.preferred_areas)),
          l.property_type, l.bedrooms.map (renderDec 0), l.bathrooms.map (renderDec 1),
          l.status, l.source, l.priority.map (renderDec 0), l.notes⟩ := by
  obtain ⟨hfnc, hfnne, hlnc, hlnne, hemc, hemne, hemv, hph, hpt, hnt, har,
    ⟨s, hsmem, hs⟩, ⟨src, hsrcmem, hsrc⟩, hprine, hprilo, hprihi, hca⟩ := h
  have Hfn : rowLookup exportHeaders (rawCells l) (str "first_name") = some l.first_name := by
    simp [rowLookup, exportHeaders, rawCells, str, hfnne]
  have Hln : rowLookup exportHeaders (rawCells l) (str "last_name") = some l.last_name := by
    simp [rowLookup, exportHeaders, rawCells, str, hlnne]
  have Hem : rowLookup exportHeaders (rawCells l) (str "email") = some l.email := by
    simp [rowLookup, exportHeaders, rawCells, str, hemne]
  have Hph : rowLookup exportHeaders (rawCells l) (str "phone") = l.phone := by
    rcases hp : l.phone with _ | p
    · simp [rowLookup, exportHeaders, rawCells, str, optRaw, hp]
    · have hpne : p ≠ [] := by
        intro hcontra
        rw [hp, hcontra] at hph
        exact hph.2 rfl
      simp [rowLookup, exportHeaders, rawCells, str, optRaw, hp, hpne]
  have Hbmin : rowLookup exportHeaders (rawCells l) (str "budget_min")
      = l.budget_min.map (renderDec 2) := by
    rcases hb : l.budget_min with _ | n
    · simp [rowLookup, exportHeaders, rawCells, str, numCell, hb]
    · simp [rowLookup, exportHeaders, rawCells, str, numCell, hb, renderDec_ne_nil 2 n]
  have Hbmax : rowLookup exportHeaders (rawCells l) (str "budget_max")
      = l.budget_max.map (renderDec 2) := by
    rcases hb : l.budget_max with _ | n
    · simp [rowLookup, exportHeaders, rawCells, str, numCell, hb]
    · simp [rowLookup, exportHeaders, rawCells, str, numCell, hb, renderDec_ne_nil 2 n]
  have Har : rowLookup exportHeaders (rawCells l) (str "preferred_areas")
      = (match l.preferred_areas with
        | [] => none
        | _ :: _ => some (joinSep [';'] l.preferred_areas)) := by
    rcases ha : l.preferred_areas with _ | ⟨a, as⟩
    · simp [rowLookup, exportHeaders, rawCells, str, ha, joinSep]
    · have hane : a ≠ [] := (har a (by rw [ha]; exact List.mem_cons_self _ _)).2.1
      have hjne : joinSep [';'] (a :: as) ≠ [] := joinSep_ne_nil_of_head hane as [';']
      simp [rowLookup, exportHeaders, rawCells, str, ha, hjne]
  have Hpt : rowLookup exportHeaders (rawCells l) (str "property_type") = l.property_type := by
    rcases hp : l.property_type with _ | p
    · simp [rowLookup, exportHeaders, rawCells, str, optRaw, hp]
    · have hpne : p ≠ [] := by
        intro hcontra
        rw [hp, hcontra] at hpt
        exact hpt.2 rfl
      simp [rowLookup, exportHeaders, rawCells, str, optRaw, hp, hpne]
  have Hbed : rowLookup exportHeaders (rawCells l) (str "bedrooms")
      = l.bedrooms.map (renderDec 0) := by
    rcases hb : l.bedrooms with _ | n
    · simp [rowLookup, exportHeaders, rawCells, str, numCell, hb]
    · simp [rowLookup, exportHeaders, rawCells, str, numCell, hb, renderDec_ne_nil 0 n]
  have Hbath : rowLookup exportHeaders (rawCells l) (str "bathrooms")
      = l.bathrooms.map (renderDec 1) := by
    rcases hb : l.bathrooms with _ | n
    · simp [rowLookup, exportHeaders, rawCells, str, numCell, hb]
    · simp [rowLookup, exportHeaders, rawCells, str, numCell, hb, renderDec_ne_nil 1 n]
  have Hst : rowLookup exportHeaders (rawCells l) (str "status") = l.status := by
    have hsne : s ≠ [] := (statusLit_props hsmem).1
    simp [rowLookup, exportHeaders, rawCells, str, optRaw, hs, hsne]
  have Hsrc : rowLookup exportHeaders (rawCells l) (str "source") = l.source := by
    have hsne : src ≠ [] := (sourceLit_props hsrcmem).1
    simp [rowLookup, exportHeaders, rawCells, str, optRaw, hsrc, hsne]
  have Hpri : rowLookup exportHeaders (rawCells l) (str "priority")
      = l.priority.map (renderDec 0) := by
    rcases hb : l.priority with _ | n
    · exact absurd hb hprine
    · simp [rowLookup, exportHeaders, rawCells, str, numCell, hb, renderDec_ne_nil 0 n]
  have Hnt : rowLookup exportHeaders (rawCells l) (str "notes") = l.notes := by
    rcases hp : l.notes with _ | p
    · simp [rowLookup, exportHeaders, rawCells, str, optRaw, hp]
    · have hpne : p ≠ [] := by
        intro hcontra
        rw [hp, hcontra] at hnt
        exact hnt.2 rfl
      simp [rowLookup, exportHeaders, rawCells, str, optRaw, hp, hpne]
  unfold csvImportSchemaParse
  rw [Hfn, Hln, Hem]
  dsimp only
  rw [if_pos hemv]
  rw [Hph, Hbmin, Hbmax, Har, Hpt, Hbed, Hbath, Hst, Hsrc, Hpri, Hnt]


theorem rawCells_clean (l : StoredLead) (h : RoundTrippable l) :
    ∀ x ∈ rawCells l, '"' ∉ x ∧ jsTrim x = x := by
  obtain ⟨hfnc, hfnne, hlnc, hlnne, hemc, hemne, hemv, hph, hpt, hnt, har,
    ⟨s, hsmem, hs⟩, ⟨src, hsrcmem, hsrc⟩, hprine, hprilo, hprihi, hca⟩ := h
  intro x hx
  have hopt : ∀ v : Option (List Char), cleanOpt v →
      '"' ∉ optRaw v ∧ jsTrim (optRaw v) = optRaw v := by
    rintro (_ | p) hv
    · exact ⟨by simp [optRaw], rfl⟩
    · exact ⟨hv.1.2.1, hv.1.1⟩
  have hnum : ∀ (sc : Nat) (v : Option Int),
      '"' ∉ numCell sc v ∧ jsTrim (numCell sc v) = numCell sc v := by
    rintro sc (_ | n)
    · exact ⟨by simp [numCell], rfl⟩
    · exact ⟨renderDec_not_mem (by decide) (by decide) (by decide),
        renderDec_trimFixed sc n⟩
  have hjoin : '"' ∉ joinSep [';'] l.preferred_areas
      ∧ jsTrim (joinSep [';'] l.preferred_areas) = joinSep [';'] l.preferred_areas := by
    constructor
    · intro hmem
      rcases mem_joinSep hmem with h1 | ⟨a, ha, hqa⟩
      · simp at h1
      · exact (har a ha).1.2.1 hqa
    · exact jsTrim_joinSep (fun a ha => ⟨(har a ha).2.1, (har a ha).1.1⟩) [';']
  unfold rawCells at hx
  simp only [List.mem_cons, List.not_mem_nil, or_false] at hx
  rcases hx with rfl | rfl | rfl | rfl | rfl | rfl | rfl | rfl | rfl | rfl | rfl | rfl | rfl | rfl | rfl
  · exact ⟨hfnc.2.1, hfnc.1⟩
  · exact ⟨hlnc.2.1, hlnc.1⟩
  · exact ⟨hemc.2.1, hemc.1⟩
  · exact hopt _ hph
  · exact hnum 2 l.budget_min
  · exact hnum 2 l.budget_max
  · exact hjoin
  · exact hopt _ hpt
  · exact hnum 0 l.bedrooms
  · exact hnum 1 l.bathrooms
  · rw [hs]
    obtain ⟨hsne, hstr, hsq, -, -⟩ := statusLit_props hsmem
    exact ⟨hsq, hstr⟩
  · rw [hsrc]
    obtain ⟨hsne, hstr, hsq, -, -⟩ := sourceLit_props hsrcmem
    exact ⟨hsq, hstr⟩
  · exact hnum 0 l.priority
  · exact hopt _ hnt
  · exact ⟨hca.2.1, hca.1⟩

theorem exportCells_eq (l : StoredLead) (h : RoundTrippable l) :
    exportCells l = (rawCells l).map quoteIfComma := by
  obtain ⟨hfnc, hfnne, hlnc, hlnne, hemc, hemne, hemv, hph, hpt, hnt, har,
    ⟨s, hsmem, hs⟩, ⟨src, hsrcmem, hsrc⟩, hprine, hprilo, hprihi, hca⟩ := h
  have hoptc : ∀ v : Option (List Char), optCell v = quoteIfComma (optRaw v) := by
    rintro (_ | p)
    · rfl
    · rfl
  have hnumc : ∀ (sc : Nat) (v : Option Int), numCell sc v = quoteIfComma (numCell sc v) := by
    rintro sc (_ | n)
    · rfl
    · show renderDec sc n = quoteIfComma (renderDec sc n)
      unfold quoteIfComma
      have hnc : ¬(renderDec sc n).contains ',' = true := by
        intro hc
        have hmem : ',' ∈ renderDec sc n := by simpa using hc
        exact renderDec_not_mem (by decide) (by decide) (by decide) hmem
      rw [if_neg hnc]
  have hjoinc : joinSep [';'] l.preferred_areas
      = quoteIfComma (joinSep [';'] l.preferred_areas) := by
    unfold quoteIfComma
    have hnc : ¬(joinSep [';'] l.preferred_areas).contains ',' = true := by
      intro hc
      have hmem : ',' ∈ joinSep [';'] l.preferred_areas := by simpa using hc
      rcases mem_joinSep hmem with h1 | ⟨a, ha, hqa⟩
      · simp at h1
      · exact (har a ha).2.2.1 hqa
    rw [if_neg hnc]
  unfold exportCells rawCells
  rw [List.map_cons, List.map_cons, List.map_cons, List.map_cons, List.map_cons,
    List.map_cons, List.map_cons, List.map_cons, List.map_cons, List.map_cons,
    List.map_cons, List.map_cons, List.map_cons, List.map_cons, List.map_cons,
    List.map_nil]
  rw [← hoptc l.phone, ← hoptc l.property_type, ← hoptc l.status, ← hoptc l.source,
    ← hoptc l.notes, ← hnumc 2 l.budget_min, ← hnumc 2 l.budget_max,
    ← hnumc 0 l.bedrooms, ← hnumc 1 l.bathrooms, ← hnumc 0 l.priority, ← hjoinc]

theorem parseCsvLine_exportRow (l : StoredLead) (h : RoundTrippable l) :
    parseCsvLine (exportRow l) = rawCells l := by
  unfold exportRow
  rw [exportCells_eq l h]
  rw [parseCsvLine_join (by unfold rawCells; simp)
    (fun x hx => (rawCells_clean l h x hx).1)]
  exact map_eq_self_of (fun x hx => (rawCells_clean l h x hx).2)

theorem toLeadData_export (uid : Nat) (l : StoredLead) (h : RoundTrippable l) :
    toLeadData uid
      ⟨l.first_name, l.last_name, l.email, l.phone,
        l.budget_min.map (renderDec 2), l.budget_max.map (renderDec 2),
        (match l.preferred_areas with
          | [] => none
          | _ :: _ => some (joinSep [';'] l.preferred_areas)),
        l.property_type, l.bedrooms.map (renderDec 0), l.bathrooms.map (renderDec 1),
        l.status, l.source, l.priority.map (renderDec 0), l.notes⟩
      = asLeadData uid l := by
  obtain ⟨hfnc, hfnne, hlnc, hlnne, hemc, hemne, hemv, hph, hpt, hnt, har,
    ⟨s, hsmem, hs⟩, ⟨src, hsrcmem, hsrc⟩, hprine, hprilo, hprihi, hca⟩ := h
  have htruthyOpt : ∀ v : Option (List Char), cleanOpt v → truthy v = v := by
    rintro (_ | p) hv
    · rfl
    · have hpne : p ≠ [] := by
        intro hcontra
        rw [hcontra] at hv
        exact hv.2 rfl
      simp [truthy, hpne]
  have htruthyNum : ∀ (sc : Nat) (v : Option Int),
      truthy (v.map (renderDec sc)) = v.map (renderDec sc) := by
    rintro sc (_ | n)
    · rfl
    · simp [truthy, renderDec_ne_nil sc n]
  unfold toLeadData asLeadData
  simp only [LeadData.mk.injEq]
  refine ⟨trivial, trivial, trivial, ?_, ?_, ?_, ?_, ?_, ?_, ?_, ?_, ?_, ?_, ?_, trivial⟩
  · exact htruthyOpt l.phone hph
  · rw [htruthyNum 2 l.budget_min]
    rcases l.budget_min with _ | n
    · rfl
    · simp [parseDecChars_renderDec 2 n]
  · rw [htruthyNum 2 l.budget_max]
    rcases l.budget_max with _ | n
    · rfl
    · simp [parseDecChars_renderDec 2 n]
  · rcases ha : l.preferred_areas with _ | ⟨a, as⟩
    · rfl
    · have hclean : ∀ x ∈ a :: as, cleanArea x := by
        rw [← ha]
        exact har
      have hane : a ≠ [] := (hclean a (List.mem_cons_self _ _)).2.1
      have hjne : joinSep [';'] (a :: as) ≠ [] := joinSep_ne_nil_of_head hane as [';']
      have hsplit : (joinSep [';'] (a :: as)).splitOn ';' = a :: as :=
        splitOn_joinSep (by simp) (fun p hp => (hclean p hp).2.2.2)
      simp only [truthy]
      rw [if_neg hjne]
      dsimp only
      rw [hsplit]
      exact map_eq_self_of (fun x hx => (hclean x hx).1.1)
  · exact htruthyOpt l.property_type hpt
  · rw [htruthyNum 0 l.bedrooms]
    rcases l.bedrooms with _ | n
    · rfl
    · simp [parseIntChars_renderDec n]
  · rw [htruthyNum 1 l.bathrooms]
    rcases l.bathrooms with _ | n
    · rfl
    · simp [parseDecChars_renderDec 1 n]
  · rw [hs]
    have hsne : s ≠ [] := (statusLit_props hsmem).1
    simp [orElseStr, hsne]
  · rw [hsrc]
    have hsne : src ≠ [] := (sourceLit_props hsrcmem).1
    simp [orElseStr, hsne]
  · rcases hp : l.priority with _ | n
    · exact absurd hp hprine
    · simp only [Option.map_some', truthy]
      rw [if_neg (renderDec_ne_nil 0 n)]
      dsimp only
      rw [parseIntChars_renderDec n]
  · exact htruthyOpt l.notes hnt

theorem importRow_export (uid : Nat) (l : StoredLead) (h : RoundTrippable l) :
    importRow dbInsertAccepts uid exportHeaders (exportRow l) = .ok (asLeadData uid l) := by
  unfold importRow
  rw [parseCsvLine_exportRow l h, csvParse_export l h]
  dsimp only
  rw [toLeadData_export uid l h]
  have hins : dbInsertAccepts (asLeadData uid l) = true := by
    obtain ⟨hfnc, hfnne, hlnc, hlnne, hemc, hemne, hemv, hph, hpt, hnt, har,
      ⟨s, hsmem, hs⟩, ⟨src, hsrcmem, hsrc⟩, hprine, hprilo, hprihi, hca⟩ := h
    rcases hp : l.priority with _ | p
    · exact absurd hp hprine
    · rw [hp] at hprilo hprihi
      unfold dbInsertAccepts leadRowAccepted asLeadData
      dsimp only
      rw [hs, hsrc, hp]
      simp only [Option.getD_some]
      simp [hsmem, hsrcmem]
      constructor
      · exact hprilo
      · exact hprihi
  rw [if_pos hins]

theorem mem_quoteIfComma {c : Char} {s : List Char} (h : c ∈ quoteIfComma s) :
    c = '"' ∨ c ∈ s := by
  unfold quoteIfComma at h
  by_cases hc : s.contains ','
  · rw [if_pos hc] at h
    rcases List.mem_cons.1 h with rfl | h1
    · exact Or.inl rfl
    · rcases List.mem_append.1 h1 with h2 | h2
      · exact Or.inr h2
      · exact Or.inl (List.mem_singleton.1 h2)
  · rw [if_neg hc] at h
    exact Or.inr h

theorem rawCells_no_newline (l : StoredLead) (h : RoundTrippable l) :
    ∀ x ∈ rawCells l, '\n' ∉ x := by
  obtain ⟨hfnc, hfnne, hlnc, hlnne, hemc, hemne, hemv, hph, hpt, hnt, har,
    ⟨s, hsmem, hs⟩, ⟨src, hsrcmem, hsrc⟩, hprine, hprilo, hprihi, hca⟩ := h
  intro x hx
  have hopt : ∀ v : Option (List Char), cleanOpt v → '\n' ∉ optRaw v := by
    rintro (_ | p) hv
    · simp [optRaw]
    · exact hv.1.2.2
  have hnum : ∀ (sc : Nat) (v : Option Int), '\n' ∉ numCell sc v := by
    rintro sc (_ | n)
    · simp [numCell]
    · exact renderDec_not_mem (by decide) (by decide) (by decide)
  have hjoin : '\n' ∉ joinSep [';'] l.preferred_areas := by
    intro hmem
    rcases mem_joinSep hmem with h1 | ⟨a, ha, hqa⟩
    · simp at h1
    · exact (har a ha).1.2.2 hqa
  unfold rawCells at hx
  simp only [List.mem_cons, List.not_mem_nil, or_false] at hx
  rcases hx with rfl | rfl | rfl | rfl | rfl | rfl | rfl | rfl | rfl | rfl | rfl | rfl | rfl | rfl | rfl
  · exact hfnc.2.2
  · exact hlnc.2.2
  · exact hemc.2.2
  · exact hopt _ hph
  · exact hnum 2 l.budget_min
  · exact hnum 2 l.budget_max
  · exact hjoin
  · exact hopt _ hpt
  · exact hnum 0 l.bedrooms
  · exact hnum 1 l.bathrooms
  · rw [hs]
    exact (statusLit_props hsmem).2.2.2.2
  · rw [hsrc]
    exact (sourceLit_props hsrcmem).2.2.2.2
  · exact hnum 0 l.priority
  · exact hopt _ hnt
  · exact hca.2.2

theorem exportRow_no_newline (l : StoredLead) (h : RoundTrippable l) :
    '\n' ∉ exportRow l := by
  intro hmem
  unfold exportRow at hmem
  rw [exportCells_eq l h] at hmem
  rcases mem_joinSep hmem with h1 | ⟨x, hx, hcx⟩
  · simp at h1
  · rw [List.mem_map] at hx
    obtain ⟨raw, hraw, rfl⟩ := hx
    rcases mem_quoteIfComma hcx with h2 | h2
    · cases h2
    · exact rawCells_no_newline l h raw hraw h2

theorem exportRow_has_comma (l : StoredLead) : ',' ∈ exportRow l := by
  unfold exportRow exportCells
  exact sep_mem_joinSep ',' _ _ _

theorem exportCsv_lines (leads : List StoredLead)
    (h : ∀ l ∈ leads, RoundTrippable l) :
    ((String.mk (exportCsv leads)).data.splitOn '\n').filter (fun l => jsTrim l ≠ [])
      = (joinSep [','] exportHeaders) :: leads.map exportRow := by
  have hnl : ∀ p ∈ (joinSep [','] exportHeaders) :: leads.map exportRow, '\n' ∉ p := by
    intro p hp
    rcases List.mem_cons.1 hp with rfl | hp1
    · decide
    · rw [List.mem_map] at hp1
      obtain ⟨l, hl, rfl⟩ := hp1
      exact exportRow_no_newline l (h l hl)
  have hkeep : ∀ a ∈ (joinSep [','] exportHeaders) :: leads.map exportRow,
      decide (jsTrim a ≠ []) = true := by
    intro a ha
    rcases List.mem_cons.1 ha with rfl | ha1
    · decide
    · rw [List.mem_map] at ha1
      obtain ⟨l, hl, rfl⟩ := ha1
      simp only [ne_eq, decide_eq_true_eq]
      exact jsTrim_ne_nil (exportRow_has_comma l) (by decide)
  rw [show (String.mk (exportCsv leads)).data = exportCsv leads from rfl]
  unfold exportCsv
  rw [splitOn_joinSep (by simp) hnl]
  exact List.filter_eq_self.2 hkeep

theorem okOutcomes_export (uid : Nat) (leads : List StoredLead)
    (h : ∀ l ∈ leads, RoundTrippable l) :
    ∀ n : Nat, okOutcomes dbInsertAccepts uid exportHeaders
        ((leads.map exportRow).enumFrom n) = leads.map (asLeadData uid) := by
  induction leads with
  | nil => intro n; rfl
  | cons l ls ih =>
    intro n
    rw [List.map_cons, show ((exportRow l :: ls.map exportRow).enumFrom n)
        = (n, exportRow l) :: (ls.map exportRow).enumFrom (n + 1) from rfl]
    unfold okOutcomes
    rw [List.filterMap_cons]
    dsimp only
    rw [importRow_export uid l (h l (List.mem_cons_self _ _))]
    rw [show (Except.ok (asLeadData uid l) : Except String LeadData).toOption
        = some (asLeadData uid l) from rfl]
    dsimp only
    rw [List.map_cons]
    congr 1
    exact ih (fun x hx => h x (List.mem_cons_of_mem _ hx)) (n + 1)

theorem errOutcomes_export (uid : Nat) (leads : List StoredLead)
    (h : ∀ l ∈ leads, RoundTrippable l) :
    ∀ n : Nat, errOutcomes dbInsertAccepts uid exportHeaders
        ((leads.map exportRow).enumFrom n) = [] := by
  induction leads with
  | nil => intro n; rfl
  | cons l ls ih =>
    intro n
    rw [List.map_cons, show ((exportRow l :: ls.map exportRow).enumFrom n)
        = (n, exportRow l) :: (ls.map exportRow).enumFrom (n + 1) from rfl]
    unfold errOutcomes
    rw [List.filterMap_cons]
    dsimp only
    rw [importRow_export uid l (h l (List.mem_cons_self _ _))]
    dsimp only
    exact ih (fun x hx => h x (List.mem_cons_of_mem _ hx)) (n + 1)

theorem headerLine_normalize :
    (parseCsvLine (joinSep [','] exportHeaders)).map normalizeHeader = exportHeaders := by
  rfl

/-- **C3, amended.** For a non-empty list of stored leads whose values survive
the CSV layer (`RoundTrippable`: clean required texts, valid email, clean
optional texts, areas free of `,`/`;`, non-null enum values, non-null priority
in `[1,5]`), exporting and re-importing succeeds for all N rows and inserts N
leads with the same field values (status/source unwrapped, row attributed to
the importer) — id and timestamps are server-side and absent from the model.
The unrestricted claim is false (see the counterexample). -/
theorem c3_amended (uid : Nat) (leads : List StoredLead) (h1 : leads ≠ [])
    (h2 : ∀ l ∈ leads, RoundTrippable l) :
    handleFileImport dbInsertAccepts uid (String.mk (exportCsv leads))
      = .ok (⟨leads.length, [], leads.length⟩, leads.map (asLeadData uid)) := by
  unfold handleFileImport
  rw [exportCsv_lines leads h2]
  rw [if_neg (by
    simp only [List.length_cons, List.length_map, Nat.not_lt]
    cases leads with
    | nil => exact absurd rfl h1
    | cons x xs => simp)]
  dsimp only
  rw [headerLine_normalize]
  rw [if_neg (by decide)]
  have hrows : ∀ p ∈ (leads.map exportRow).enum, jsTrim p.2 ≠ [] := by
    intro p hp
    have hmem : p.2 ∈ leads.map exportRow := by
      have := List.mem_enum_iff_getElem?.1 hp
      exact List.getElem?_mem this
    rw [List.mem_map] at hmem
    obtain ⟨l, hl, hrow⟩ := hmem
    rw [← hrow]
    exact jsTrim_ne_nil (exportRow_has_comma l) (by decide)
  rw [importFold_eq _ _ _ _ hrows]
  rw [show (leads.map exportRow).enum = (leads.map exportRow).enumFrom 0 from rfl]
  rw [okOutcomes_export uid leads h2 0, errOutcomes_export uid leads h2 0]
  simp

set_option maxRecDepth 4000 in
/-- **C3, counterexample.** The claim quantifies over *every* set of stored
leads.  False: a lead whose `notes` contains a newline (the lead form accepts
arbitrary note strings) exports to a CSV whose row breaks across two lines —
the export does not escape newlines.  Re-importing a 1-lead export then
attempts 2 rows, records an error, and the one inserted lead's notes are
truncated to the part before the newline, so the field values are not
equivalent. -/
theorem c3_cex :
    handleFileImport dbInsertAccepts 0 (String.mk (exportCsv [newlineNotesLead]))
      = .ok (⟨1, [⟨3, "last_name: Required"⟩], 2⟩,
          [⟨str "John", str "Doe", str "john@x.com", none, none, none, [], none,
            none, none, str "new", str "website", some 3, some ['a'], 0⟩])
      ∧ (⟨str "John", str "Doe", str "john@x.com", none, none, none, [], none,
            none, none, str "new", str "website", some 3, some ['a'], 0⟩
          : LeadData).notes ≠ newlineNotesLead.notes
      ∧ (2 : Nat) ≠ [newlineNotesLead].length := by
  exact ⟨by rfl, by decide, by decide⟩



/-- Witness for `c3_amended` on a clean lead exercising every field (comma in
notes, spaced area names, decimal bathrooms, both budgets). -/
theorem c3_witness :
    handleFileImport dbInsertAccepts 0 (String.mk (exportCsv [witnessLead]))
      = .ok (⟨1, [], 1⟩, [asLeadData 0 witnessLead]) :=
  c3_amended 0 [witnessLead] (by simp)
    (by
      intro l hl
      rw [List.mem_singleton] at hl
      subst hl
      refine ⟨?f1, ?f2, ?f3, ?f4, ?f5, ?f6, ?f7, ?f8, ?f9, ?f10, ?f11, ?f12,
        ?f13, ?f14, ?f15, ?f16, ?f17⟩ <;> decide)

end BuyerLeads

